import Mathlib

/-!
# libabstract: configuration loader and connection selection

A shallow embedding of `libabstract.c` (with `abstract.h`): the structure
`abstract_t`, the loader `abstract_loadfile` and the two selectors
`abstract_reader` and `abstract_writer`, followed by theorems about them.

Conventions of the embedding

* A `char` is a natural number below 256, a text is a `List Nat`.  A C string
  pointer is an `Option (List Nat)`: `none` is `NULL`, `some s` points at the
  bytes `s` followed by the terminating NUL.
* `assert` is live (the source never defines `NDEBUG`): a failed assertion
  aborts the process.  A function that can abort returns an `Option`, and
  `none` is the abort.
* The C library and the MySQL client library are not part of the repository.
  `strsep`, `strcasecmp` and `atoi` are modelled after their manual pages (C
  locale); the MySQL client is a parameter of the selectors.
-/

namespace LibAbstract

/-! # Part 1: the embedding and the vocabulary of the theorems -/

/-- The bytes of an ASCII string literal (used to write texts readably). -/
def str (s : String) : List Nat := s.toList.map Char.toNat

/-! ## The data structure (`abstract.h`) -/

/-- The anonymous struct type of the members `master` and `slave`. -/
structure endpoint where
  host : Option (List Nat)
  user : Option (List Nat)
  pass : Option (List Nat)
  db : Option (List Nat)
  /-- An `unsigned int`: always below `2 ^ 32`. -/
  port : Nat
deriving DecidableEq, Repr

/-- The struct `abstract_t`.  The member `filecontent` only records whether the
pointer is non-NULL: the strings of the endpoints, which in C point into that
buffer, are held by value. -/
structure abstract_t where
  filecontent : Bool
  master : endpoint
  slave : endpoint
  internally_created : Nat
deriving DecidableEq, Repr

/-- The function `abstract_clear`. -/
def abstract_clear (a : abstract_t) : abstract_t :=
  { a with
    filecontent := false
    master := { host := none, user := none, pass := none, db := none, port := 0 }
    slave := { host := none, user := none, pass := none, db := none, port := 0 } }

/-- The function `abstract_init`: `none` is the call `abstract_init(NULL)`, which
allocates the structure (its members are garbage until cleared; `malloc` is
taken to succeed). -/
def abstract_init (abstract : Option abstract_t) : abstract_t :=
  match abstract with
  | none =>
    abstract_clear
      { filecontent := true
        master := { host := none, user := none, pass := none, db := none, port := 7 }
        slave := { host := none, user := none, pass := none, db := none, port := 7 }
        internally_created := 1 }
  | some a => abstract_clear { a with internally_created := 0 }

/-! ## C library functions used by the loader -/

/-- The function `strsep(&s, delim)` with a one-character delimiter set: the
token before the first delimiter, and the new value of `s` (`none`, that is
NULL, when the string ends before a delimiter is found).  The end of the list
is the terminating NUL of the buffer. -/
def strsep (delim : Nat) : List Nat → List Nat × Option (List Nat)
  | [] => ([], none)
  | c :: cs =>
    if c = 0 then ([], none)
    else if c = delim then ([], some cs)
    else ((c :: (strsep delim cs).1), (strsep delim cs).2)

/-- The function `tolower` in the C locale. -/
def tolower (c : Nat) : Nat := if 65 ≤ c ∧ c ≤ 90 then c + 32 else c

/-- The function `strcasecmp`: the difference of the first two bytes that differ
after `tolower`, the end of a string counting as NUL. -/
def strcasecmp : List Nat → List Nat → Int
  | [], [] => 0
  | [], b :: _ => 0 - (tolower b : Int)
  | a :: _, [] => (tolower a : Int)
  | a :: as, b :: bs =>
    if tolower a = tolower b then strcasecmp as bs
    else (tolower a : Int) - (tolower b : Int)

/-- The function `isspace` in the C locale. -/
def isspace (c : Nat) : Bool := c = 32 || (9 ≤ c && c ≤ 13)

/-- The function `isdigit`. -/
def isdigit (c : Nat) : Bool := 48 ≤ c && c ≤ 57

/-- The value of a run of decimal digits. -/
def digits_value (ds : List Nat) : Nat := ds.foldl (fun acc d => acc * 10 + (d - 48)) 0

/-- The function `strtol(s, NULL, 10)` with a 64-bit `long`: white space, an
optional sign, the longest run of digits, the result clamped to the range of
`long`. -/
def strtol (s : List Nat) : Int :=
  let s := s.dropWhile isspace
  let neg := s.head? = some 45
  let s := if s.head? = some 45 ∨ s.head? = some 43 then s.tail else s
  let v : Int := (digits_value (s.takeWhile isdigit) : Int)
  if neg then max (-v) (-(2 ^ 63)) else min v (2 ^ 63 - 1)

/-- The function `atoi`, that is `(int) strtol(s, NULL, 10)`: the conversion to a
32-bit `int` wraps. -/
def atoi (s : List Nat) : Int := (strtol s + 2 ^ 31) % 2 ^ 32 - 2 ^ 31

/-- The conversion of an `int` to `unsigned int` on assignment. -/
def to_unsigned (i : Int) : Nat := (i % 2 ^ 32).toNat

/-! ## The loader (`abstract_loadfile`) -/

/-- The state of the loop of `abstract_loadfile`: the local `hosts` and the
structure being filled.  (`hosts` is a C `int`; the embedding does not bound
it, a count of `2 ^ 31` needs a file of that many recognised lines.) -/
abbrev LoadState := Int × abstract_t

/-- The test `c == ' ' || c == '\t'` of the loop that strips leading blanks. -/
def is_blank (c : Nat) : Bool := c = 32 || c = 9

/-- The test `c == ' ' || c == '\r' || c == '\t'` of the loop that strips the
end of the line. -/
def is_trailing (c : Nat) : Bool := c = 32 || c = 13 || c = 9

/-- The comparison of the key against the known parameters and the assignment
(the chain of `if (strcasecmp(key, ...) == 0)` of `abstract_loadfile`).  An
unknown key is reported on standard error, which the embedding does not
record, and changes nothing. -/
def assign_key (key value : List Nat) (st : LoadState) : Option LoadState :=
  let hosts := st.1
  let abstract := st.2
  if strcasecmp key (str "master_host") = 0 then
    if abstract.master.host ≠ none then none
    else some (hosts + 1, { abstract with master := { abstract.master with host := some value } })
  else if strcasecmp key (str "master_user") = 0 then
    if abstract.master.user ≠ none then none
    else some (hosts + 1, { abstract with master := { abstract.master with user := some value } })
  else if strcasecmp key (str "master_pass") = 0 then
    if abstract.master.pass ≠ none then none
    else some (hosts + 1, { abstract with master := { abstract.master with pass := some value } })
  else if strcasecmp key (str "master_db") = 0 then
    if abstract.master.db ≠ none then none
    else some (hosts + 1, { abstract with master := { abstract.master with db := some value } })
  else if strcasecmp key (str "master_port") = 0 then
    if abstract.master.port ≠ 0 then none
    else some (hosts + 1,
      { abstract with master := { abstract.master with port := to_unsigned (atoi value) } })
  else if strcasecmp key (str "slave_host") = 0 then
    if abstract.slave.host ≠ none then none
    else some (hosts + 1, { abstract with slave := { abstract.slave with host := some value } })
  else if strcasecmp key (str "slave_user") = 0 then
    if abstract.slave.user ≠ none then none
    else some (hosts + 1, { abstract with slave := { abstract.slave with user := some value } })
  else if strcasecmp key (str "slave_pass") = 0 then
    if abstract.slave.pass ≠ none then none
    else some (hosts + 1, { abstract with slave := { abstract.slave with pass := some value } })
  else if strcasecmp key (str "slave_db") = 0 then
    if abstract.slave.db ≠ none then none
    else some (hosts + 1, { abstract with slave := { abstract.slave with db := some value } })
  else if strcasecmp key (str "slave_port") = 0 then
    if abstract.slave.port ≠ 0 then none
    else some (hosts + 1,
      { abstract with slave := { abstract.slave with port := to_unsigned (atoi value) } })
  else some (hosts, abstract)

/-- The body of the loop of `abstract_loadfile` once `strsep` has cut the line
off the buffer: strip, skip comments and blank lines, split at the first `=`
(`assert(value)` fails when there is none) and assign. -/
def process_line (line : List Nat) (st : LoadState) : Option LoadState :=
  let line := line.dropWhile is_blank
  if line.headD 0 ≠ 35 ∧ line.headD 0 ≠ 59 then
    let line := line.rdropWhile is_trailing
    if line.length > 0 then
      match (strsep 61 line).2 with
      | none => none
      | some value => assign_key (strsep 61 line).1 value st
    else some st
  else some st

/-- The loop `while (next != NULL && *next != '\0')` of `abstract_loadfile`.
Every round removes at least one byte from `next`, so a `fuel` above the
length of the buffer is never used up (`load_loop_lines`). -/
def load_loop : Nat → Option (List Nat) → LoadState → Option LoadState
  | 0, _, _ => none
  | _ + 1, none, st => some st
  | fuel + 1, some next, st =>
    if next.headD 0 = 0 then some st
    else
      match process_line (strsep 10 next).1 st with
      | none => none
      | some st1 => load_loop fuel (strsep 10 next).2 st1

/-- The function `abstract_loadfile`.  The file is what `fopen` and `fread`
deliver: `none` when the file cannot be opened, otherwise its bytes.  The
result is `none` when an assertion fails, otherwise the returned count with the
structure as the call leaves it. -/
def abstract_loadfile (abstract : abstract_t) (file : Option (List Nat)) :
    Option LoadState :=
  if abstract.filecontent then none
  else
    match file with
    | none => some (0, abstract)
    | some content =>
      if content.length > 0 then
        load_loop (content.length + 1) (some content) (0, { abstract with filecontent := true })
      else none

/-! ## The connection selectors (`abstract_reader`, `abstract_writer`) -/

/-- The arguments of `mysql_real_connect` after the handle. -/
structure connect_args where
  host : Option (List Nat)
  user : Option (List Nat)
  passwd : Option (List Nat)
  db : Option (List Nat)
  port : Nat
  unix_socket : Option (List Nat)
  client_flag : Nat
deriving DecidableEq, Repr

/-- The flag `CLIENT_COMPRESS` of the MySQL client header. -/
def CLIENT_COMPRESS : Nat := 32

/-- The MySQL client library, which is not part of the repository: any three
functions over a state `World` of the library and the network.  A handle
(`MYSQL *`) is a number; `mysql_init(NULL)` is taken to succeed;
`mysql_real_connect` answers whether the connection was opened. -/
structure mysql_client (World : Type) where
  mysql_init : World → Nat × World
  mysql_real_connect : World → Nat → connect_args → Bool × World
  mysql_close : World → Nat → World

/-- A call into the MySQL client library. -/
inductive event where
  | init (mysql : Nat)
  | connect (mysql : Nat) (args : connect_args) (ok : Bool)
  | close (mysql : Nat)
deriving DecidableEq, Repr

/-- How a call of a selector ends: with a handle, with NULL, or in a failed
assertion. -/
inductive outcome where
  | handle (mysql : Nat)
  | null
  | aborted
deriving DecidableEq, Repr

/-- A call of a selector: how it ends, the calls it made into the client library
in order, and the state the library is left in. -/
structure run (World : Type) where
  result : outcome
  trace : List event
  world : World

/-- The arguments `abstract_writer` passes to `mysql_real_connect`. -/
def master_args (abstract : abstract_t) : connect_args :=
  { host := abstract.master.host, user := abstract.master.user
    passwd := abstract.master.pass, db := abstract.master.db
    port := abstract.master.port, unix_socket := none, client_flag := CLIENT_COMPRESS }

/-- The arguments `abstract_reader` passes to `mysql_real_connect`. -/
def slave_args (abstract : abstract_t) : connect_args :=
  { host := abstract.slave.host, user := abstract.slave.user
    passwd := abstract.slave.pass, db := abstract.slave.db
    port := abstract.slave.port, unix_socket := none, client_flag := CLIENT_COMPRESS }

/-- The function `abstract_writer`. -/
def abstract_writer {World : Type} (c : mysql_client World) (abstract : abstract_t)
    (w : World) : run World :=
  if abstract.master.host ≠ none ∧ abstract.master.user ≠ none then
    if abstract.master.pass = none then { result := .aborted, trace := [], world := w }
    else if abstract.master.db = none then { result := .aborted, trace := [], world := w }
    else
      let mysql := (c.mysql_init w).1
      let w1 := (c.mysql_init w).2
      let r := c.mysql_real_connect w1 mysql (master_args abstract)
      if r.1 = false then
        { result := .null
          trace := [.init mysql, .connect mysql (master_args abstract) false, .close mysql]
          world := c.mysql_close r.2 mysql }
      else
        { result := .handle mysql
          trace := [.init mysql, .connect mysql (master_args abstract) true]
          world := r.2 }
  else { result := .null, trace := [], world := w }

/-- The function `abstract_reader`. -/
def abstract_reader {World : Type} (c : mysql_client World) (abstract : abstract_t)
    (w : World) : run World :=
  if abstract.slave.host = none ∨ abstract.slave.user = none then abstract_writer c abstract w
  else
    if abstract.slave.pass = none then { result := .aborted, trace := [], world := w }
    else if abstract.slave.db = none then { result := .aborted, trace := [], world := w }
    else
      let mysql := (c.mysql_init w).1
      let w1 := (c.mysql_init w).2
      let r := c.mysql_real_connect w1 mysql (slave_args abstract)
      if r.1 = false then
        let m := abstract_writer c abstract (c.mysql_close r.2 mysql)
        { result := m.result
          trace := [.init mysql, .connect mysql (slave_args abstract) false, .close mysql]
            ++ m.trace
          world := m.world }
      else
        { result := .handle mysql
          trace := [.init mysql, .connect mysql (slave_args abstract) true]
          world := r.2 }

/-- A client for examples: the state is the number of handles given out and the
answers of the coming connection attempts (none left: the attempt fails). -/
def scripted_client : mysql_client (Nat × List Bool) where
  mysql_init := fun w => (w.1, (w.1 + 1, w.2))
  mysql_real_connect := fun w _ _ => (w.2.headD false, (w.1, w.2.tail))
  mysql_close := fun w _ => w

/-! ## Config files as texts, line by line -/

/-- The text of a file given by its lines: the lines are separated by a line
feed, and the last one is followed by one when `final_newline` is set.  Every
text is of this form. -/
def config_text : List (List Nat) → Bool → List Nat
  | [], _ => []
  | [l], final_newline => l ++ (if final_newline then [10] else [])
  | l :: l1 :: ls, final_newline => l ++ 10 :: config_text (l1 :: ls) final_newline

/-- The loop body applied to the lines of a file in turn. -/
def load_lines : List (List Nat) → LoadState → Option LoadState
  | [], st => some st
  | l :: ls, st =>
    match process_line l st with
    | none => none
    | some st1 => load_lines ls st1

/-! ## Files with NUL bytes -/

/-- The C string at the start of a buffer: the bytes before the first NUL. -/
def cstr (s : List Nat) : List Nat := s.takeWhile (fun c => c != 0)

/-- The lines the loop of `abstract_loadfile` sees in a file given by its lines:
the lines up to the first one with a NUL, and of that one the part before the
NUL. -/
def c_lines : List (List Nat) → List (List Nat)
  | [] => []
  | l :: ls => if 0 ∈ l then [cstr l] else l :: c_lines ls

/-! ## The ten recognised keys -/

/-- The ten parameters `abstract_loadfile` compares a key against, in the order
of the comparisons. -/
inductive config_key where
  | master_host | master_user | master_pass | master_db | master_port
  | slave_host | slave_user | slave_pass | slave_db | slave_port
deriving DecidableEq, Repr

/-- The name of a parameter as the source spells it. -/
def config_key.name : config_key → List Nat
  | .master_host => str "master_host"
  | .master_user => str "master_user"
  | .master_pass => str "master_pass"
  | .master_db => str "master_db"
  | .master_port => str "master_port"
  | .slave_host => str "slave_host"
  | .slave_user => str "slave_user"
  | .slave_pass => str "slave_pass"
  | .slave_db => str "slave_db"
  | .slave_port => str "slave_port"

/-- The ten parameters. -/
def config_key.all : List config_key :=
  [.master_host, .master_user, .master_pass, .master_db, .master_port,
   .slave_host, .slave_user, .slave_pass, .slave_db, .slave_port]

/-- The condition the assertion before the assignment of a parameter rejects:
the member is not NULL, for a port not 0. -/
def is_set (k : config_key) (a : abstract_t) : Bool :=
  match k with
  | .master_host => a.master.host ≠ none
  | .master_user => a.master.user ≠ none
  | .master_pass => a.master.pass ≠ none
  | .master_db => a.master.db ≠ none
  | .master_port => a.master.port ≠ 0
  | .slave_host => a.slave.host ≠ none
  | .slave_user => a.slave.user ≠ none
  | .slave_pass => a.slave.pass ≠ none
  | .slave_db => a.slave.db ≠ none
  | .slave_port => a.slave.port ≠ 0

/-- The assignment of a parameter. -/
def store_value (k : config_key) (value : List Nat) (a : abstract_t) : abstract_t :=
  match k with
  | .master_host => { a with master := { a.master with host := some value } }
  | .master_user => { a with master := { a.master with user := some value } }
  | .master_pass => { a with master := { a.master with pass := some value } }
  | .master_db => { a with master := { a.master with db := some value } }
  | .master_port => { a with master := { a.master with port := to_unsigned (atoi value) } }
  | .slave_host => { a with slave := { a.slave with host := some value } }
  | .slave_user => { a with slave := { a.slave with user := some value } }
  | .slave_pass => { a with slave := { a.slave with pass := some value } }
  | .slave_db => { a with slave := { a.slave with db := some value } }
  | .slave_port => { a with slave := { a.slave with port := to_unsigned (atoi value) } }

/-- The parameter a key is taken for: the first one, in the order of the
comparisons, whose name `strcasecmp` finds equal to the key. -/
def classify (key : List Nat) : Option config_key :=
  if strcasecmp key (str "master_host") = 0 then some .master_host
  else if strcasecmp key (str "master_user") = 0 then some .master_user
  else if strcasecmp key (str "master_pass") = 0 then some .master_pass
  else if strcasecmp key (str "master_db") = 0 then some .master_db
  else if strcasecmp key (str "master_port") = 0 then some .master_port
  else if strcasecmp key (str "slave_host") = 0 then some .slave_host
  else if strcasecmp key (str "slave_user") = 0 then some .slave_user
  else if strcasecmp key (str "slave_pass") = 0 then some .slave_pass
  else if strcasecmp key (str "slave_db") = 0 then some .slave_db
  else if strcasecmp key (str "slave_port") = 0 then some .slave_port
  else none

/-! ## Decimal numerals and `atoi` -/

/-- The decimal numeral of a number. -/
def decimal (n : Nat) : List Nat :=
  if n = 0 then [48] else (Nat.digits 10 n).reverse.map (· + 48)

/-! ## Lines that assign a parameter -/

/-- The line `name=value` for a parameter. -/
def assignment_line (k : config_key) (value : List Nat) : List Nat := k.name ++ 61 :: value

/-- Whether a text ends in a character the loader strips from the end of a line
(space, tab, carriage return). -/
def ends_in_trailing (v : List Nat) : Bool :=
  match v.getLast? with
  | some c => is_trailing c
  | none => false

/-- A value as it can stand on a line of a config file and be read back: no line
feed, no NUL, and no stripped character at its end. -/
def well_formed_value (v : List Nat) : Prop :=
  10 ∉ v ∧ 0 ∉ v ∧ ends_in_trailing v = false

instance (v : List Nat) : Decidable (well_formed_value v) := by
  unfold well_formed_value
  infer_instance

/-- The value written on the line of each parameter of a file that sets all ten:
a text for the eight strings, a decimal numeral for the two ports. -/
def ten_values (strings : config_key → List Nat) (master_port slave_port : Nat)
    (k : config_key) : List Nat :=
  match k with
  | .master_port => decimal master_port
  | .slave_port => decimal slave_port
  | .master_host => strings .master_host
  | .master_user => strings .master_user
  | .master_pass => strings .master_pass
  | .master_db => strings .master_db
  | .slave_host => strings .slave_host
  | .slave_user => strings .slave_user
  | .slave_pass => strings .slave_pass
  | .slave_db => strings .slave_db

/-- Strings for an example file. -/
def example_strings : config_key → List Nat
  | .master_host => str "db1.example.org"
  | .master_user => str "writer"
  | .master_pass => str "s3cr=t #1"
  | .master_db => str "shop"
  | .slave_host => str "db2.example.org"
  | .slave_user => str "reader"
  | .slave_pass => str ""
  | .slave_db => str "shop"
  | _ => []

/-- An order of the ten parameters for an example file. -/
def example_order : List config_key :=
  [.slave_port, .master_db, .master_host, .slave_user, .master_port,
   .slave_host, .master_pass, .slave_db, .master_user, .slave_pass]

/-! ## Structures for examples -/

/-- A structure with both endpoints fully set, for examples. -/
def example_store : abstract_t :=
  { filecontent := true
    master :=
      { host := some (str "db1.example.org"), user := some (str "writer")
        pass := some (str "s3cr=t #1"), db := some (str "shop"), port := 3307 }
    slave :=
      { host := some (str "db2.example.org"), user := some (str "reader")
        pass := some (str ""), db := some (str "shop"), port := 3308 }
    internally_created := 1 }

/-- A structure with only the master set, for examples. -/
def master_only_store : abstract_t :=
  { example_store with
    slave := { host := none, user := none, pass := none, db := none, port := 0 } }

/-- The structure a load of the two lines `master_host=db1`, `master_user=root`
leaves: the master has host and user, but neither password nor database. -/
def half_store : abstract_t :=
  { filecontent := true
    master := { host := some (str "db1"), user := some (str "root"), pass := none, db := none,
                port := 0 }
    slave := { host := none, user := none, pass := none, db := none, port := 0 }
    internally_created := 1 }

/-! ## An invariant of the loader: the count and the strings -/

/-- While the count is 0, no string member has been assigned. -/
def count_invariant (st : LoadState) : Prop :=
  0 ≤ st.1 ∧
    (st.1 = 0 →
      st.2.master.host = none ∧ st.2.master.user = none ∧ st.2.master.pass = none ∧
      st.2.master.db = none ∧ st.2.slave.host = none ∧ st.2.slave.user = none ∧
      st.2.slave.pass = none ∧ st.2.slave.db = none)

/-! ## Kinds of lines -/

/-- A line without its leading spaces and tabs and without its trailing spaces,
tabs and carriage returns. -/
def stripped (l : List Nat) : List Nat := (l.dropWhile is_blank).rdropWhile is_trailing

/-- A line that is empty or made only of spaces, tabs and carriage returns. -/
def blank_line (l : List Nat) : Prop := ∀ c ∈ l, c = 32 ∨ c = 9 ∨ c = 13

/-- A line whose first character after leading spaces and tabs is `#` or `;`. -/
def comment_line (l : List Nat) : Prop :=
  (l.dropWhile is_blank).head? = some 35 ∨ (l.dropWhile is_blank).head? = some 59

instance (l : List Nat) : Decidable (blank_line l) := by
  unfold blank_line
  infer_instance

instance (l : List Nat) : Decidable (comment_line l) := by
  unfold comment_line
  infer_instance

/-! ## Letter case of the key -/

/-- Two lines that differ only in the case of ASCII letters before the first
`=`: a common rest after texts without `=` that are equal once lowered. -/
def key_case_variant (l1 l2 : List Nat) : Prop :=
  ∃ k1 k2 rest, l1 = k1 ++ rest ∧ l2 = k2 ++ rest ∧ 61 ∉ k1 ∧ k1.map tolower = k2.map tolower

/-! ## Configured hosts -/

/-- The number of configured endpoints of a structure: an endpoint is configured
when its host and its user are both present. -/
def configured_hosts (a : abstract_t) : Nat :=
  (if a.master.host ≠ none ∧ a.master.user ≠ none then 1 else 0) +
    (if a.slave.host ≠ none ∧ a.slave.user ≠ none then 1 else 0)

/-! ## The version of the header -/

/-- The macro `LIBABSTRACT_VERSION` as `abstract.h` defines it. -/
def LIBABSTRACT_VERSION : Nat := 0x00000100

/-- The guard `#if (LIBABSTRACT_VERSION != 0x00000200)` / `#error` at the top of
`libabstract.c`: whether the file compiles against a header that defines the
macro as `version`. -/
def header_version_accepted (version : Nat) : Bool := !(version != 0x00000200)

/-- The function `abstract_version` of a library compiled against a header that
defines `LIBABSTRACT_VERSION` as `version` (`none`: the assertion fails). -/
def abstract_version (version : Nat) : Option Nat :=
  if version > 0 then some version else none

/-! ## A structure with empty strings -/

/-- The structure a load of `master_host=db1`, `master_user=root`,
`master_pass=`, `master_db=` leaves: password and database are present and
empty. -/
def empty_secret_store : abstract_t :=
  { filecontent := true
    master := { host := some (str "db1"), user := some (str "root"), pass := some [],
                db := some [], port := 0 }
    slave := { host := none, user := none, pass := none, db := none, port := 0 }
    internally_created := 1 }

/-! ## The life of a handle -/

/-- What has happened to a handle that `mysql_init` has given out and
`mysql_close` has not yet taken back. -/
inductive handle_state where
  | initialised
  | connected
  | failed
deriving DecidableEq, Repr

/-- One step of the monitor of the calls into the client library, over the live
handles and their states: `mysql_init` gives a handle that is not live; a
connection is attempted once, on a handle just initialised; only a handle whose
attempt failed is closed, and closing ends its life.  Any other call is a
violation (`none`). -/
def handle_step (live : List (Nat × handle_state)) (e : event) :
    Option (List (Nat × handle_state)) :=
  match e with
  | .init mysql =>
    if live.lookup mysql = none then some ((mysql, .initialised) :: live) else none
  | .connect mysql _ ok =>
    if live.lookup mysql = some .initialised then
      some ((mysql, if ok then .connected else .failed) :: live.filter (fun p => p.1 != mysql))
    else none
  | .close mysql =>
    if live.lookup mysql = some .failed then some (live.filter (fun p => p.1 != mysql))
    else none

/-- The monitor run over a trace. -/
def handle_run : List event → List (Nat × handle_state) → Option (List (Nat × handle_state))
  | [], live => some live
  | e :: es, live =>
    match handle_step live e with
    | none => none
    | some live1 => handle_run es live1

/-- The trace of a call and its result fit together: the monitor finds no
violation, and at the return the only live handle is the returned one, which is
connected; when NULL is returned, or the call aborts, no handle is live. -/
def handles_ok (trace : List event) (result : outcome) : Prop :=
  handle_run trace [] =
    some (match result with
      | .handle mysql => [(mysql, .connected)]
      | .null => []
      | .aborted => [])

instance (trace : List event) (result : outcome) : Decidable (handles_ok trace result) := by
  unfold handles_ok
  infer_instance

/-- The connection attempts of a trace, in order: the arguments of each call of
`mysql_real_connect`. -/
def connect_attempts : List event → List connect_args
  | [] => []
  | .connect _ args _ :: es => args :: connect_attempts es
  | .init _ :: es => connect_attempts es
  | .close _ :: es => connect_attempts es

/-! ## What a line does -/

/-- What a line does to the load, read off the loop body: `none` when
`assert(value)` fails (no `=`), `some none` when the line changes nothing (a
blank line, a comment, an unknown key), `some (some (k, v))` when it assigns the
value `v` to the parameter `k`. -/
def line_effect (line : List Nat) : Option (Option (config_key × List Nat)) :=
  let line := line.dropWhile is_blank
  if line.headD 0 ≠ 35 ∧ line.headD 0 ≠ 59 then
    let line := line.rdropWhile is_trailing
    if line.length > 0 then
      match (strsep 61 line).2 with
      | none => none
      | some value => some ((classify (strsep 61 line).1).map (fun k => (k, value)))
    else some none
  else some none

/-- The parameter a line assigns, if it assigns one. -/
def assigned_key (line : List Nat) : Option config_key :=
  match line_effect line with
  | some (some (k, _)) => some k
  | _ => none

/-- The assignment of a line that has passed `assert(value)`: the assertion on
the member, the count, the member. -/
def apply_assignment (e : Option (config_key × List Nat)) (st : LoadState) :
    Option LoadState :=
  match e with
  | none => some st
  | some (k, v) => if is_set k st.2 then none else some (st.1 + 1, store_value k v st.2)

/-! ## White space around a line -/

/-- The second line is the first one with spaces and tabs put before it and
spaces, tabs and carriage returns put after it. -/
def padded (l1 l2 : List Nat) : Prop :=
  ∃ p w, (∀ c ∈ p, c = 32 ∨ c = 9) ∧ (∀ c ∈ w, c = 32 ∨ c = 9 ∨ c = 13) ∧ l2 = p ++ l1 ++ w

/-! ## A file with one assignment to a parameter -/

/-- The string member a parameter names (`none` for the two ports, which are
numbers). -/
def string_member (k : config_key) (a : abstract_t) : Option (List Nat) :=
  match k with
  | .master_host => a.master.host
  | .master_user => a.master.user
  | .master_pass => a.master.pass
  | .master_db => a.master.db
  | .slave_host => a.slave.host
  | .slave_user => a.slave.user
  | .slave_pass => a.slave.pass
  | .slave_db => a.slave.db
  | .master_port => none
  | .slave_port => none

/-- The port member a parameter names (0 for the eight strings). -/
def port_member (k : config_key) (a : abstract_t) : Nat :=
  match k with
  | .master_port => a.master.port
  | .slave_port => a.slave.port
  | _ => 0

/-- Whether a value starts with a number as `atoi` reads one: white space, an
optional sign, then a digit. -/
def starts_with_number (v : List Nat) : Bool :=
  let s := v.dropWhile isspace
  let s := if s.head? = some 45 ∨ s.head? = some 43 then s.tail else s
  match s.head? with
  | some c => isdigit c
  | none => false

/-! # Part 2: lemmas and theorems -/

/-! ## Lemmas: `strsep` and the loop -/

theorem strsep_append (d : Nat) (l rest : List Nat) (hd : d ∉ l) (h0 : (0 : Nat) ∉ l)
    (hd0 : d ≠ 0) : strsep d (l ++ d :: rest) = (l, some rest) := by
  induction l with
  | nil => simp [strsep, hd0]
  | cons c cs ih =>
    simp only [List.mem_cons, not_or] at hd h0
    have h1 : c ≠ 0 := fun h => h0.1 h.symm
    have h2 : c ≠ d := fun h => hd.1 h.symm
    simp [strsep, h1, h2, ih hd.2 h0.2]

theorem strsep_none (d : Nat) (l : List Nat) (hd : d ∉ l) (h0 : (0 : Nat) ∉ l) :
    strsep d l = (l, none) := by
  induction l with
  | nil => simp [strsep]
  | cons c cs ih =>
    simp only [List.mem_cons, not_or] at hd h0
    have h1 : c ≠ 0 := fun h => h0.1 h.symm
    have h2 : c ≠ d := fun h => hd.1 h.symm
    simp [strsep, h1, h2, ih hd.2 h0.2]

/-- Every text is the text of some lines without line feed. -/
theorem config_text_surjective (t : List Nat) :
    ∃ (lines : List (List Nat)) (final_newline : Bool),
      (∀ l ∈ lines, 10 ∉ l) ∧ config_text lines final_newline = t := by
  induction t with
  | nil => exact ⟨[], false, ⟨fun l hl => absurd hl (List.not_mem_nil l), rfl⟩⟩
  | cons c cs ih =>
    obtain ⟨lines, nl, hnl, rfl⟩ := ih
    by_cases hc : c = 10
    · subst hc
      cases lines with
      | nil => exact ⟨[[]], true, ⟨by simp, rfl⟩⟩
      | cons l1 ls =>
        refine ⟨[] :: l1 :: ls, nl, ?_, rfl⟩
        intro l hl
        rcases List.mem_cons.mp hl with rfl | h1
        · simp
        · exact hnl l h1
    · cases lines with
      | nil => exact ⟨[[c]], false, ⟨by simpa using fun h => hc h.symm, rfl⟩⟩
      | cons l1 ls =>
        refine ⟨(c :: l1) :: ls, nl, ?_, ?_⟩
        · intro l hl
          rcases List.mem_cons.mp hl with rfl | h1
          · have := hnl l1 (List.mem_cons_self _ _)
            simp only [List.mem_cons, not_or]
            exact ⟨fun h => hc h.symm, this⟩
          · exact hnl l (List.mem_cons_of_mem _ h1)
        · cases ls <;> rfl

theorem process_line_nil (st : LoadState) : process_line [] st = some st := by
  simp [process_line, List.rdropWhile]

theorem load_loop_nil (fuel : Nat) (st : LoadState) :
    load_loop (fuel + 1) (some []) st = some st := by
  simp [load_loop]

theorem load_loop_null (fuel : Nat) (st : LoadState) :
    load_loop (fuel + 1) none st = some st := by
  simp [load_loop]

theorem headD_line_ne_zero (l rest : List Nat) (h0 : (0 : Nat) ∉ l) :
    (l ++ 10 :: rest).headD 0 ≠ 0 := by
  cases l with
  | nil => simp
  | cons c cs =>
    simp only [List.mem_cons, not_or] at h0
    simpa using fun h => h0.1 h.symm

/-- One round of the loop on a buffer that starts with a line and its line
feed. -/
theorem load_loop_line (fuel : Nat) (l rest : List Nat) (st : LoadState)
    (hnl : (10 : Nat) ∉ l) (h0 : (0 : Nat) ∉ l) :
    load_loop (fuel + 1) (some (l ++ 10 :: rest)) st =
      match process_line l st with
      | none => none
      | some st1 => load_loop fuel (some rest) st1 := by
  rw [load_loop, if_neg (headD_line_ne_zero l rest h0),
    strsep_append 10 l rest hnl h0 (by decide)]

/-- The last round of the loop, on a line that no line feed follows. -/
theorem load_loop_last (fuel : Nat) (l : List Nat) (st : LoadState)
    (hnl : (10 : Nat) ∉ l) (h0 : (0 : Nat) ∉ l) :
    load_loop (fuel + 2) (some l) st = process_line l st := by
  cases l with
  | nil => rw [load_loop_nil, process_line_nil]
  | cons c cs =>
    have hc : c ≠ 0 := by
      simp only [List.mem_cons, not_or] at h0
      exact fun h => h0.1 h.symm
    rw [load_loop, if_neg (by simpa using hc), strsep_none 10 _ hnl h0]
    cases process_line (c :: cs) st with
    | none => rfl
    | some st1 => simp [load_loop]

/-- The loop of `abstract_loadfile` never runs out of fuel on a text of lines
without NUL, and processes its lines in turn. -/
theorem load_loop_lines (lines : List (List Nat)) (final_newline : Bool)
    (hnl : ∀ l ∈ lines, (10 : Nat) ∉ l) (h0 : ∀ l ∈ lines, (0 : Nat) ∉ l) :
    ∀ (fuel : Nat) (st : LoadState), (config_text lines final_newline).length < fuel →
      load_loop fuel (some (config_text lines final_newline)) st = load_lines lines st := by
  induction lines with
  | nil =>
    intro fuel st hf
    cases fuel with
    | zero => simp at hf
    | succ f => simp [config_text, load_lines, load_loop]
  | cons l ls ih =>
    intro fuel st hf
    have hl := hnl l (List.mem_cons_self _ _)
    have hl0 := h0 l (List.mem_cons_self _ _)
    cases ls with
    | nil =>
      cases final_newline with
      | false =>
        cases l with
        | nil =>
          obtain ⟨f, rfl⟩ : ∃ f, fuel = f + 1 := ⟨fuel - 1, by omega⟩
          simp [config_text, load_loop, load_lines, process_line_nil]
        | cons c cs =>
          obtain ⟨f, rfl⟩ : ∃ f, fuel = f + 2 :=
            ⟨fuel - 2, by simp [config_text] at hf; omega⟩
          simp only [config_text, Bool.false_eq_true, if_false, List.append_nil]
          rw [load_loop_last _ _ _ hl hl0]
          simp only [load_lines]
          cases process_line (c :: cs) st <;> rfl
      | true =>
        obtain ⟨f, rfl⟩ : ∃ f, fuel = f + 2 := ⟨fuel - 2, by simp [config_text] at hf; omega⟩
        simp only [config_text, if_true]
        rw [load_loop_line _ _ _ _ hl hl0]
        simp only [load_lines]
        cases process_line l st with
        | none => rfl
        | some st1 => simp [load_loop]
    | cons l1 ls1 =>
      obtain ⟨f, rfl⟩ : ∃ f, fuel = f + 1 := ⟨fuel - 1, by omega⟩
      simp only [config_text]
      rw [load_loop_line _ _ _ _ hl hl0]
      simp only [load_lines]
      cases process_line l st with
      | none => rfl
      | some st1 =>
        simp only
        apply ih (fun x hx => hnl x (List.mem_cons_of_mem _ hx))
          (fun x hx => h0 x (List.mem_cons_of_mem _ hx))
        simp only [config_text, List.length_append, List.length_cons] at hf
        omega

/-- The function `abstract_loadfile` on a fresh structure and a non-empty text of
lines without NUL: the lines are processed in turn. -/
theorem abstract_loadfile_lines (a : abstract_t) (lines : List (List Nat))
    (final_newline : Bool) (hfresh : a.filecontent = false)
    (hnl : ∀ l ∈ lines, (10 : Nat) ∉ l) (h0 : ∀ l ∈ lines, (0 : Nat) ∉ l)
    (hne : config_text lines final_newline ≠ []) :
    abstract_loadfile a (some (config_text lines final_newline)) =
      load_lines lines (0, { a with filecontent := true }) := by
  have hlen : (config_text lines final_newline).length > 0 := List.length_pos.mpr hne
  simp only [abstract_loadfile, hfresh, Bool.false_eq_true, if_false, hlen, if_true]
  exact load_loop_lines lines final_newline hnl h0 _ _ (Nat.lt_succ_self _)

/-! ## Files with NUL bytes -/

theorem cstr_of_no_nul (s : List Nat) (h : 0 ∉ s) : cstr s = s := by
  unfold cstr
  rw [List.takeWhile_eq_self_iff]
  intro x hx
  have : x ≠ 0 := fun h1 => h (h1 ▸ hx)
  simpa using this

theorem cstr_no_nul (s : List Nat) : 0 ∉ cstr s := by
  intro h
  have := List.mem_takeWhile_imp h
  simp at this

theorem cstr_append (l r : List Nat) :
    cstr (l ++ r) = if 0 ∈ l then cstr l else l ++ cstr r := by
  induction l with
  | nil => simp
  | cons x xs ih =>
    by_cases hx : x = 0
    · subst hx; simp [cstr, List.takeWhile]
    · have hx1 : (x != 0) = true := by simpa using hx
      have hx2 : ¬ (0 = x) := fun h => hx h.symm
      simp only [cstr, List.cons_append, List.takeWhile_cons, hx1, if_true, List.mem_cons, hx2,
        false_or] at ih ⊢
      rw [ih]
      split_ifs <;> rfl

theorem strsep_cstr (d : Nat) (s : List Nat) :
    strsep d (cstr s) = ((strsep d s).1, (strsep d s).2.map cstr) := by
  induction s with
  | nil => rfl
  | cons c cs ih =>
    by_cases hc : c = 0
    · subst hc; simp [cstr, List.takeWhile, strsep]
    · have hc1 : (c != 0) = true := by simpa using hc
      have hcs : cstr (c :: cs) = c :: cstr cs := by simp [cstr, List.takeWhile, hc1]
      rw [hcs]
      by_cases hd : c = d
      · subst hd; simp [strsep, hc]
      · simp [strsep, hc, hd, ih]

theorem load_loop_cstr : ∀ (fuel : Nat) (buf : List Nat) (st : LoadState),
    load_loop fuel (some buf) st = load_loop fuel (some (cstr buf)) st := by
  intro fuel
  induction fuel with
  | zero => intro buf st; rfl
  | succ f ih =>
    intro buf st
    have hhead : (cstr buf).headD 0 = 0 ↔ buf.headD 0 = 0 := by
      cases buf with
      | nil => rfl
      | cons c cs =>
        by_cases hc : c = 0
        · subst hc; simp [cstr, List.takeWhile]
        · have hc1 : (c != 0) = true := by simpa using hc
          simp [cstr, List.takeWhile, hc1]
    simp only [load_loop, hhead, strsep_cstr]
    split_ifs
    · rfl
    · cases process_line (strsep 10 buf).1 st with
      | none => rfl
      | some st1 =>
        simp only
        cases (strsep 10 buf).2 with
        | none => rfl
        | some r => exact ih r st1

theorem c_lines_no_nul (lines : List (List Nat)) : ∀ l ∈ c_lines lines, 0 ∉ l := by
  induction lines with
  | nil => intro l hl; cases hl
  | cons x xs ih =>
    intro l hl
    unfold c_lines at hl
    split_ifs at hl with h
    · rcases List.mem_singleton.mp hl with rfl
      exact cstr_no_nul x
    · rcases List.mem_cons.mp hl with rfl | hl1
      · exact h
      · exact ih l hl1

theorem c_lines_of_no_nul (lines : List (List Nat)) (h : ∀ l ∈ lines, 0 ∉ l) :
    c_lines lines = lines := by
  induction lines with
  | nil => rfl
  | cons x xs ih =>
    simp only [c_lines, h x (List.mem_cons_self _ _), if_false]
    rw [ih (fun l hl => h l (List.mem_cons_of_mem _ hl))]

/-- Every line the loop sees is a line of the file, or the part of one before
its first NUL. -/
theorem c_lines_mem (lines : List (List Nat)) :
    ∀ l ∈ c_lines lines, ∃ l1 ∈ lines, l = cstr l1 := by
  induction lines with
  | nil => intro l hl; cases hl
  | cons x xs ih =>
    intro l hl
    unfold c_lines at hl
    split_ifs at hl with h
    · rcases List.mem_singleton.mp hl with rfl
      exact ⟨x, List.mem_cons_self _ _, rfl⟩
    · rcases List.mem_cons.mp hl with rfl | hl1
      · exact ⟨l, List.mem_cons_self _ _, (cstr_of_no_nul l h).symm⟩
      · obtain ⟨l1, h1, h2⟩ := ih l hl1
        exact ⟨l1, List.mem_cons_of_mem _ h1, h2⟩

/-- The C string of a file given by its lines is the text of the lines the loop
sees. -/
theorem cstr_config_text (lines : List (List Nat)) (final_newline : Bool) :
    ∃ nl : Bool, cstr (config_text lines final_newline) = config_text (c_lines lines) nl := by
  induction lines with
  | nil => exact ⟨false, rfl⟩
  | cons l ls ih =>
    cases ls with
    | nil =>
      by_cases h : 0 ∈ l
      · refine ⟨false, ?_⟩
        simp [config_text, c_lines, h, cstr_append]
      · refine ⟨final_newline, ?_⟩
        cases final_newline
        · simp only [config_text, c_lines, h, if_false, Bool.false_eq_true, List.append_nil]
          exact cstr_of_no_nul l h
        · simp only [config_text, c_lines, h, if_false, if_true, cstr_append]
          rfl
    | cons l1 ls1 =>
      by_cases h : 0 ∈ l
      · refine ⟨false, ?_⟩
        simp [config_text, c_lines, h, cstr_append]
      · obtain ⟨nl, hnl⟩ := ih
        refine ⟨nl, ?_⟩
        have h10 : cstr (10 :: config_text (l1 :: ls1) final_newline) =
            10 :: cstr (config_text (l1 :: ls1) final_newline) := by
          simp [cstr, List.takeWhile]
        have hc : c_lines (l :: l1 :: ls1) = l :: c_lines (l1 :: ls1) := by
          simp [c_lines, h]
        obtain ⟨x, xs, hX⟩ : ∃ x xs, c_lines (l1 :: ls1) = x :: xs := by
          unfold c_lines
          split_ifs
          · exact ⟨_, _, rfl⟩
          · exact ⟨_, _, rfl⟩
        rw [hc]
        simp only [config_text, cstr_append, h, if_false, h10, hnl]
        rw [hX]
        rfl

theorem cstr_subset (s : List Nat) : ∀ x ∈ cstr s, x ∈ s :=
  fun _ hx => (List.takeWhile_prefix _).subset hx

theorem c_lines_no_newline (lines : List (List Nat)) (hnl : ∀ l ∈ lines, 10 ∉ l) :
    ∀ l ∈ c_lines lines, 10 ∉ l := by
  intro l hl h10
  obtain ⟨l1, h1, rfl⟩ := c_lines_mem lines l hl
  exact hnl l1 h1 (cstr_subset l1 10 h10)

theorem c_lines_append (xs ys : List (List Nat)) (h : ∀ l ∈ xs, 0 ∉ l) :
    c_lines (xs ++ ys) = xs ++ c_lines ys := by
  induction xs with
  | nil => rfl
  | cons x xs ih =>
    have hx : c_lines (x :: (xs ++ ys)) = x :: c_lines (xs ++ ys) := by
      simp only [c_lines, h x (List.mem_cons_self _ _), if_false]
    rw [List.cons_append, hx, ih (fun l hl => h l (List.mem_cons_of_mem _ hl))]
    rfl

/-- The function `abstract_loadfile` on a fresh structure and a non-empty file
given by its lines: the lines the loop sees are processed in turn. -/
theorem abstract_loadfile_text (a : abstract_t) (lines : List (List Nat))
    (final_newline : Bool) (hfresh : a.filecontent = false)
    (hnl : ∀ l ∈ lines, 10 ∉ l) (hne : config_text lines final_newline ≠ []) :
    abstract_loadfile a (some (config_text lines final_newline)) =
      load_lines (c_lines lines) (0, { a with filecontent := true }) := by
  have hlen : (config_text lines final_newline).length > 0 := List.length_pos.mpr hne
  simp only [abstract_loadfile, hfresh, Bool.false_eq_true, if_false, hlen, if_true]
  rw [load_loop_cstr]
  obtain ⟨nl, h⟩ := cstr_config_text lines final_newline
  have hle : (cstr (config_text lines final_newline)).length ≤
      (config_text lines final_newline).length := (List.takeWhile_prefix _).length_le
  rw [h] at hle ⊢
  exact load_loop_lines _ nl (c_lines_no_newline lines hnl) (c_lines_no_nul lines) _ _
    (Nat.lt_succ_of_le hle)

/-! ## The ten recognised keys -/

/-- The chain of comparisons of `assign_key`, by the parameter the key is taken
for. -/
theorem assign_key_classify (key value : List Nat) (st : LoadState) :
    assign_key key value st =
      match classify key with
      | none => some st
      | some k => if is_set k st.2 then none else some (st.1 + 1, store_value k value st.2) := by
  unfold assign_key classify
  generalize strcasecmp key (str "master_host") = c1
  generalize strcasecmp key (str "master_user") = c2
  generalize strcasecmp key (str "master_pass") = c3
  generalize strcasecmp key (str "master_db") = c4
  generalize strcasecmp key (str "master_port") = c5
  generalize strcasecmp key (str "slave_host") = c6
  generalize strcasecmp key (str "slave_user") = c7
  generalize strcasecmp key (str "slave_pass") = c8
  generalize strcasecmp key (str "slave_db") = c9
  generalize strcasecmp key (str "slave_port") = c10
  by_cases h1 : c1 = 0
  · rw [if_pos h1, if_pos h1]; simp [is_set, store_value]
  rw [if_neg h1, if_neg h1]
  by_cases h2 : c2 = 0
  · rw [if_pos h2, if_pos h2]; simp [is_set, store_value]
  rw [if_neg h2, if_neg h2]
  by_cases h3 : c3 = 0
  · rw [if_pos h3, if_pos h3]; simp [is_set, store_value]
  rw [if_neg h3, if_neg h3]
  by_cases h4 : c4 = 0
  · rw [if_pos h4, if_pos h4]; simp [is_set, store_value]
  rw [if_neg h4, if_neg h4]
  by_cases h5 : c5 = 0
  · rw [if_pos h5, if_pos h5]; simp [is_set, store_value]
  rw [if_neg h5, if_neg h5]
  by_cases h6 : c6 = 0
  · rw [if_pos h6, if_pos h6]; simp [is_set, store_value]
  rw [if_neg h6, if_neg h6]
  by_cases h7 : c7 = 0
  · rw [if_pos h7, if_pos h7]; simp [is_set, store_value]
  rw [if_neg h7, if_neg h7]
  by_cases h8 : c8 = 0
  · rw [if_pos h8, if_pos h8]; simp [is_set, store_value]
  rw [if_neg h8, if_neg h8]
  by_cases h9 : c9 = 0
  · rw [if_pos h9, if_pos h9]; simp [is_set, store_value]
  rw [if_neg h9, if_neg h9]
  by_cases h10 : c10 = 0
  · rw [if_pos h10, if_pos h10]; simp [is_set, store_value]
  rw [if_neg h10, if_neg h10]

theorem classify_name (k : config_key) : classify k.name = some k := by
  cases k <;> decide

theorem assign_key_name (k : config_key) (value : List Nat) (st : LoadState) :
    assign_key k.name value st =
      if is_set k st.2 then none else some (st.1 + 1, store_value k value st.2) := by
  rw [assign_key_classify, classify_name]

/-! ## Lemmas: one line -/

/-- A line `key=value` whose key neither starts with a blank nor with a comment
character and whose value does not end in a stripped character is split at its
first `=` and assigned as it stands. -/
theorem process_line_assignment (key value : List Nat) (st : LoadState)
    (hb : is_blank (key.headD 61) = false)
    (hc : key.headD 61 ≠ 35 ∧ key.headD 61 ≠ 59)
    (he : (61 : Nat) ∉ key) (h0 : (0 : Nat) ∉ key)
    (hv : ∀ c, value.getLast? = some c → is_trailing c = false) :
    process_line (key ++ 61 :: value) st = assign_key key value st := by
  have hhead : (key ++ 61 :: value).headD 0 = key.headD 61 := by cases key <;> rfl
  have hdrop : (key ++ 61 :: value).dropWhile is_blank = key ++ 61 :: value := by
    cases key with
    | nil => simp [List.dropWhile, is_blank]
    | cons c cs =>
      have : is_blank c = false := hb
      simp [List.dropWhile, this]
  have hne : key ++ 61 :: value ≠ [] := by simp
  have hr : (key ++ 61 :: value).rdropWhile is_trailing = key ++ 61 :: value := by
    rw [List.rdropWhile_eq_self_iff]
    intro hl
    have hlast : (key ++ 61 :: value).getLast? = some ((key ++ 61 :: value).getLast hl) :=
      List.getLast?_eq_getLast _ _
    rw [List.getLast?_append, List.getLast?_cons] at hlast
    cases hvl : value.getLast? with
    | none =>
      rw [hvl] at hlast
      simp only [Option.getD_none, Option.or, Option.some.injEq] at hlast
      rw [← hlast]; decide
    | some c =>
      rw [hvl] at hlast
      simp only [Option.getD_some, Option.or, Option.some.injEq] at hlast
      rw [← hlast, hv c hvl]; decide
  have hlen : (key ++ 61 :: value).length > 0 := List.length_pos.mpr hne
  simp only [process_line, hdrop, hhead, hr, hlen, if_true,
    strsep_append 61 key value he h0 (by decide)]
  rw [if_pos ⟨hc.1, hc.2⟩]

theorem load_lines_append (xs ys : List (List Nat)) (st : LoadState) :
    load_lines (xs ++ ys) st = (load_lines xs st).bind (load_lines ys) := by
  induction xs generalizing st with
  | nil => rfl
  | cons l ls ih =>
    simp only [List.cons_append, load_lines]
    cases process_line l st with
    | none => rfl
    | some st1 => exact ih st1

/-! ## Decimal numerals and `atoi` -/

theorem digits_value_append (ds : List Nat) (d : Nat) :
    digits_value (ds ++ [d]) = digits_value ds * 10 + (d - 48) := by
  simp [digits_value, List.foldl_append]

theorem digits_value_digits (L : List Nat) :
    digits_value (L.reverse.map (· + 48)) = Nat.ofDigits 10 L := by
  induction L with
  | nil => rfl
  | cons d L ih =>
    rw [List.reverse_cons, List.map_append, List.map_singleton, digits_value_append, ih,
      Nat.ofDigits_cons]
    omega

theorem decimal_digits (n : Nat) : ∀ c ∈ decimal n, 48 ≤ c ∧ c ≤ 57 := by
  intro c hc
  unfold decimal at hc
  split_ifs at hc with h
  · rcases List.mem_singleton.mp hc with rfl
    decide
  · simp only [List.mem_map, List.mem_reverse] at hc
    obtain ⟨d, hd, rfl⟩ := hc
    have := Nat.digits_lt_base (by norm_num : 1 < 10) hd
    show 48 ≤ d + 48 ∧ d + 48 ≤ 57
    omega

theorem decimal_ne_nil (n : Nat) : decimal n ≠ [] := by
  unfold decimal
  split_ifs with h
  · simp
  · simp [Nat.digits_eq_nil_iff_eq_zero, h]

theorem digits_value_decimal (n : Nat) : digits_value (decimal n) = n := by
  unfold decimal
  split_ifs with h
  · subst h; rfl
  · rw [digits_value_digits, Nat.ofDigits_digits]

theorem strtol_decimal (n : Nat) : strtol (decimal n) = min (n : Int) (2 ^ 63 - 1) := by
  have hd := decimal_digits n
  have hne := decimal_ne_nil n
  have h1 : (decimal n).dropWhile isspace = decimal n := by
    cases hs : decimal n with
    | nil => rfl
    | cons c cs =>
      obtain ⟨hlo, hhi⟩ := hd c (by rw [hs]; exact List.mem_cons_self _ _)
      have hc : isspace c = false := by
        interval_cases c <;> rfl
      simp [List.dropWhile, hc]
  have h2 : (decimal n).head? ≠ some 45 ∧ (decimal n).head? ≠ some 43 := by
    cases hs : decimal n with
    | nil => simp
    | cons c cs =>
      obtain ⟨hlo, hhi⟩ := hd c (by rw [hs]; exact List.mem_cons_self _ _)
      interval_cases c <;> simp
  have h3 : (decimal n).takeWhile isdigit = decimal n := by
    rw [List.takeWhile_eq_self_iff]
    intro c hc
    have := hd c hc
    simp [isdigit, this.1, this.2]
  simp only [strtol, h1, h2.1, h2.2, or_self, if_false, h3, digits_value_decimal]

theorem to_unsigned_atoi_decimal (n : Nat) (h : n < 2 ^ 32) :
    to_unsigned (atoi (decimal n)) = n := by
  unfold to_unsigned atoi
  rw [strtol_decimal]
  omega

/-! ## Files of assignments to distinct parameters -/

theorem name_no_newline (k : config_key) : 10 ∉ k.name := by cases k <;> decide

theorem name_no_nul (k : config_key) : 0 ∉ k.name := by cases k <;> decide

theorem name_no_equals (k : config_key) : 61 ∉ k.name := by cases k <;> decide

theorem decimal_well_formed (n : Nat) : well_formed_value (decimal n) := by
  have hd := decimal_digits n
  refine ⟨fun h => by have := hd _ h; omega, fun h => by have := hd _ h; omega, ?_⟩
  unfold ends_in_trailing
  cases hl : (decimal n).getLast? with
  | none => rfl
  | some c =>
    obtain ⟨hlo, hhi⟩ := hd c (List.mem_of_getLast?_eq_some hl)
    interval_cases c <;> rfl

theorem process_assignment_line (k : config_key) (v : List Nat) (st : LoadState)
    (hv : ends_in_trailing v = false) :
    process_line (assignment_line k v) st =
      if is_set k st.2 then none else some (st.1 + 1, store_value k v st.2) := by
  rw [← assign_key_name]
  apply process_line_assignment
  · cases k <;> decide
  · cases k <;> decide
  · exact name_no_equals k
  · exact name_no_nul k
  · intro c hc
    simpa [ends_in_trailing, hc] using hv

theorem is_set_store_value_of_ne (k k1 : config_key) (v : List Nat) (a : abstract_t)
    (h : k1 ≠ k) : is_set k1 (store_value k v a) = is_set k1 a := by
  cases k <;> cases k1 <;> first | exact absurd rfl h | rfl

theorem store_value_comm (k1 k2 : config_key) (v1 v2 : List Nat) (a : abstract_t)
    (h : k1 ≠ k2) :
    store_value k2 v2 (store_value k1 v1 a) = store_value k1 v1 (store_value k2 v2 a) := by
  cases k1 <;> cases k2 <;> first | exact absurd rfl h | rfl

/-- Lines that assign distinct parameters, none of them set before, are all
accepted: each one is counted and stored. -/
theorem load_lines_assignments (value : config_key → List Nat)
    (hv : ∀ k, ends_in_trailing (value k) = false) :
    ∀ (order : List config_key) (st : LoadState), order.Nodup →
      (∀ k ∈ order, is_set k st.2 = false) →
      load_lines (order.map (fun k => assignment_line k (value k))) st =
        some (st.1 + order.length,
          order.foldl (fun a k => store_value k (value k) a) st.2) := by
  intro order
  induction order with
  | nil => intro st _ _; simp [load_lines]
  | cons k ks ih =>
    intro st hnd hset
    rw [List.nodup_cons] at hnd
    simp only [List.map_cons, load_lines, process_assignment_line k _ st (hv k),
      hset k (List.mem_cons_self _ _), Bool.false_eq_true, if_false]
    rw [ih _ hnd.2]
    · simp only [List.foldl_cons, List.length_cons, Nat.cast_add, Nat.cast_one]
      congr 2
      ring
    · intro k1 hk1
      have hne : k1 ≠ k := fun h => hnd.1 (h ▸ hk1)
      simp only [is_set_store_value_of_ne k k1 _ _ hne]
      exact hset k1 (List.mem_cons_of_mem _ hk1)

theorem config_text_ne_nil (l : List Nat) (ls : List (List Nat)) (final_newline : Bool)
    (h : l ≠ []) : config_text (l :: ls) final_newline ≠ [] := by
  cases ls <;> simp [config_text, h]

theorem ten_values_well_formed (strings : config_key → List Nat) (master_port slave_port : Nat)
    (hstrings : ∀ k, well_formed_value (strings k)) (k : config_key) :
    well_formed_value (ten_values strings master_port slave_port k) := by
  cases k <;> first | exact hstrings _ | exact decimal_well_formed _

/-- C1: a file of exactly ten lines `name=value`, one for each of the ten
parameters in any order (with or without a final line feed), the eight string
values free of line feed and NUL and not ending in a stripped character, the two
ports decimal numerals of numbers below `2 ^ 32`: `abstract_loadfile` on a
freshly initialised structure returns 10 and leaves every string member equal
to the value on its line and every port equal to its number. -/
theorem C1_load_ten_keys (o : Option abstract_t) (strings : config_key → List Nat)
    (master_port slave_port : Nat) (order : List config_key) (final_newline : Bool)
    (horder : order.Perm config_key.all)
    (hstrings : ∀ k, well_formed_value (strings k))
    (hmaster : master_port < 2 ^ 32) (hslave : slave_port < 2 ^ 32) :
    abstract_loadfile (abstract_init o)
        (some (config_text
          (order.map (fun k => assignment_line k (ten_values strings master_port slave_port k)))
          final_newline)) =
      some (10,
        { filecontent := true
          master :=
            { host := some (strings .master_host), user := some (strings .master_user)
              pass := some (strings .master_pass), db := some (strings .master_db)
              port := master_port }
          slave :=
            { host := some (strings .slave_host), user := some (strings .slave_user)
              pass := some (strings .slave_pass), db := some (strings .slave_db)
              port := slave_port }
          internally_created := (abstract_init o).internally_created }) := by
  have hwf := ten_values_well_formed strings master_port slave_port hstrings
  have hfresh : (abstract_init o).filecontent = false := by cases o <;> rfl
  have hnl : ∀ l ∈ order.map
      (fun k => assignment_line k (ten_values strings master_port slave_port k)),
      10 ∉ l := by
    intro l hl
    obtain ⟨k, _, rfl⟩ := List.mem_map.mp hl
    simp [assignment_line, name_no_newline, (hwf k).1]
  have h0 : ∀ l ∈ order.map
      (fun k => assignment_line k (ten_values strings master_port slave_port k)),
      0 ∉ l := by
    intro l hl
    obtain ⟨k, _, rfl⟩ := List.mem_map.mp hl
    simp [assignment_line, name_no_nul, (hwf k).2.1]
  have hlen : order.length = 10 := horder.length_eq
  have hne : config_text (order.map
      (fun k => assignment_line k (ten_values strings master_port slave_port k)))
      final_newline ≠ [] := by
    cases order with
    | nil => simp at hlen
    | cons k ks =>
      exact config_text_ne_nil _ _ _ (by simp [assignment_line])
  have hnd : order.Nodup := horder.nodup_iff.mpr (by decide)
  rw [abstract_loadfile_lines _ _ _ hfresh hnl h0 hne,
    load_lines_assignments _ (fun k => (hwf k).2.2) order _ hnd
      (by intro k _; cases o <;> cases k <;> rfl),
    horder.foldl_eq' (fun x _ y _ z => by
      by_cases hxy : x = y
      · subst hxy; rfl
      · exact store_value_comm x y _ _ z hxy)]
  simp only [hlen, config_key.all, List.foldl, store_value, ten_values,
    to_unsigned_atoi_decimal _ hmaster, to_unsigned_atoi_decimal _ hslave]
  cases o <;> rfl

/-- C1 at an example: ten lines in a shuffled order, ports 3307 and 3308. -/
theorem C1_load_ten_keys_witness :
    example_order.Perm config_key.all ∧
    (∀ k, well_formed_value (example_strings k)) ∧
    abstract_loadfile (abstract_init none)
        (some (config_text
          (example_order.map
            (fun k => assignment_line k (ten_values example_strings 3307 3308 k)))
          true)) =
      some (10,
        { filecontent := true
          master :=
            { host := some (str "db1.example.org"), user := some (str "writer")
              pass := some (str "s3cr=t #1"), db := some (str "shop")
              port := 3307 }
          slave :=
            { host := some (str "db2.example.org"), user := some (str "reader")
              pass := some (str ""), db := some (str "shop")
              port := 3308 }
          internally_created := 1 }) :=
  ⟨by decide, fun k => by cases k <;> decide,
    C1_load_ten_keys none example_strings 3307 3308 example_order true (by decide)
      (fun k => by cases k <;> decide) (by norm_num) (by norm_num)⟩

/-- C2 at its failing inputs: a port assigned twice, the first value being 0
(or not a number, which `atoi` reads as 0).  The assertion `port == 0` takes the
port for unset, the load returns 2 and the second value stays.  A string
assigned twice, and a port assigned twice with a first value other than 0, do
stop in the assertion. -/
theorem C2_duplicate_port_accepted :
    abstract_loadfile (abstract_init none)
        (some (str "master_port=0\nmaster_port=3307\n")) =
      some (2,
        { filecontent := true
          master := { host := none, user := none, pass := none, db := none, port := 3307 }
          slave := { host := none, user := none, pass := none, db := none, port := 0 }
          internally_created := 1 }) ∧
    abstract_loadfile (abstract_init none)
        (some (str "slave_port=abc\nslave_port=3308\n")) =
      some (2,
        { filecontent := true
          master := { host := none, user := none, pass := none, db := none, port := 0 }
          slave := { host := none, user := none, pass := none, db := none, port := 3308 }
          internally_created := 1 }) ∧
    abstract_loadfile (abstract_init none)
        (some (str "master_host=db1\nMaster_Host=db2\n")) = none ∧
    abstract_loadfile (abstract_init none)
        (some (str "master_port=3307\nmaster_port=3307\n")) = none := by
  refine ⟨?_, ?_, ?_, ?_⟩ <;> decide

/-! ## Theorems on the selectors -/

/-- C3: when the slave has host, user, password and database, `abstract_reader`
makes one attempt, on the slave with compression; if it succeeds the slave
handle is returned and nothing else is called; if it fails the handle is closed
and the call ends as `abstract_writer` does from there, result included. -/
theorem C3_reader_slave_first {World : Type} (c : mysql_client World) (a : abstract_t)
    (w : World) (hh : a.slave.host ≠ none) (hu : a.slave.user ≠ none)
    (hp : a.slave.pass ≠ none) (hd : a.slave.db ≠ none) :
    let mysql := (c.mysql_init w).1
    let args : connect_args :=
      { host := a.slave.host, user := a.slave.user, passwd := a.slave.pass, db := a.slave.db
        port := a.slave.port, unix_socket := none, client_flag := CLIENT_COMPRESS }
    let r := c.mysql_real_connect (c.mysql_init w).2 mysql args
    (r.1 = true →
      (abstract_reader c a w).result = .handle mysql ∧
      (abstract_reader c a w).trace = [.init mysql, .connect mysql args true] ∧
      (abstract_reader c a w).world = r.2) ∧
    (r.1 = false →
      (abstract_reader c a w).result =
        (abstract_writer c a (c.mysql_close r.2 mysql)).result ∧
      (abstract_reader c a w).trace =
        [.init mysql, .connect mysql args false, .close mysql] ++
          (abstract_writer c a (c.mysql_close r.2 mysql)).trace ∧
      (abstract_reader c a w).world =
        (abstract_writer c a (c.mysql_close r.2 mysql)).world) := by
  intro mysql args r
  have hcfg : ¬(a.slave.host = none ∨ a.slave.user = none) := by
    rintro (h | h)
    · exact hh h
    · exact hu h
  constructor
  · intro hr
    have hr1 : (c.mysql_real_connect (c.mysql_init w).2 (c.mysql_init w).1 (slave_args a)).1
        = true := hr
    have hw : abstract_reader c a w =
        { result := .handle mysql
          trace := [.init mysql, .connect mysql args true]
          world := r.2 } := by
      simp only [abstract_reader, if_neg hcfg, if_neg hp, if_neg hd, hr1, Bool.true_eq_false,
        if_false]
      rfl
    rw [hw]
    exact ⟨rfl, rfl, rfl⟩
  · intro hr
    have hr1 : (c.mysql_real_connect (c.mysql_init w).2 (c.mysql_init w).1 (slave_args a)).1
        = false := hr
    have hw : abstract_reader c a w =
        { result := (abstract_writer c a (c.mysql_close r.2 mysql)).result
          trace := [.init mysql, .connect mysql args false, .close mysql] ++
            (abstract_writer c a (c.mysql_close r.2 mysql)).trace
          world := (abstract_writer c a (c.mysql_close r.2 mysql)).world } := by
      simp only [abstract_reader, if_neg hcfg, if_neg hp, if_neg hd, hr1, if_true]
      rfl
    rw [hw]
    exact ⟨rfl, rfl, rfl⟩

/-- C3 at an example: the slave attempt fails, the master attempt succeeds, and
the reader returns the master handle. -/
theorem C3_reader_slave_first_witness :
    example_store.slave.host ≠ none ∧ example_store.slave.user ≠ none ∧
    example_store.slave.pass ≠ none ∧ example_store.slave.db ≠ none ∧
    (abstract_reader scripted_client example_store (0, [false, true])).result =
      (abstract_writer scripted_client example_store (1, [true])).result ∧
    (abstract_reader scripted_client example_store (0, [true])).result = .handle 0 :=
  ⟨by decide, by decide, by decide, by decide,
    ((C3_reader_slave_first scripted_client example_store (0, [false, true])
      (by decide) (by decide) (by decide) (by decide)).2 rfl).1,
    ((C3_reader_slave_first scripted_client example_store (0, [true])
      (by decide) (by decide) (by decide) (by decide)).1 rfl).1⟩

/-- C4: when the master password and database are present, `abstract_writer`
returns a handle exactly when master host and user are present and the attempt
with (master host, user, password, database, port, no socket, compression)
succeeds; otherwise it returns NULL, after closing the handle when the attempt
failed, and without any call into the client library when host or user is
absent. -/
theorem C4_writer_outcome {World : Type} (c : mysql_client World) (a : abstract_t)
    (w : World) (hp : a.master.pass ≠ none) (hd : a.master.db ≠ none) :
    let mysql := (c.mysql_init w).1
    let args : connect_args :=
      { host := a.master.host, user := a.master.user, passwd := a.master.pass
        db := a.master.db, port := a.master.port, unix_socket := none
        client_flag := CLIENT_COMPRESS }
    let r := c.mysql_real_connect (c.mysql_init w).2 mysql args
    ((∃ h, (abstract_writer c a w).result = .handle h) ↔
      (a.master.host ≠ none ∧ a.master.user ≠ none ∧ r.1 = true)) ∧
    (a.master.host ≠ none ∧ a.master.user ≠ none ∧ r.1 = true →
      (abstract_writer c a w).result = .handle mysql ∧
      (abstract_writer c a w).trace = [.init mysql, .connect mysql args true]) ∧
    (¬(a.master.host ≠ none ∧ a.master.user ≠ none ∧ r.1 = true) →
      (abstract_writer c a w).result = .null) ∧
    (a.master.host ≠ none ∧ a.master.user ≠ none ∧ r.1 = false →
      (abstract_writer c a w).trace =
        [.init mysql, .connect mysql args false, .close mysql]) ∧
    (a.master.host = none ∨ a.master.user = none →
      (abstract_writer c a w).result = .null ∧ (abstract_writer c a w).trace = [] ∧
      (abstract_writer c a w).world = w) := by
  intro mysql args r
  by_cases hcfg : a.master.host ≠ none ∧ a.master.user ≠ none
  · cases hr : (c.mysql_real_connect (c.mysql_init w).2 (c.mysql_init w).1 (master_args a)).1
    · have hr1 : r.1 = false := hr
      have hw : abstract_writer c a w =
          { result := .null
            trace := [.init mysql, .connect mysql args false, .close mysql]
            world := c.mysql_close r.2 mysql } := by
        simp only [abstract_writer, if_pos hcfg, if_neg hp, if_neg hd, hr, if_true]
        rfl
      rw [hw]
      simp [hr1, hcfg.1, hcfg.2]
    · have hr1 : r.1 = true := hr
      have hw : abstract_writer c a w =
          { result := .handle mysql
            trace := [.init mysql, .connect mysql args true]
            world := r.2 } := by
        simp only [abstract_writer, if_pos hcfg, if_neg hp, if_neg hd, hr,
          Bool.true_eq_false, if_false]
        rfl
      rw [hw]
      simp [hr1, hcfg.1, hcfg.2]
  · have hw : abstract_writer c a w = { result := .null, trace := [], world := w } := by
      simp only [abstract_writer, if_neg hcfg]
    rw [hw]
    have hcfg2 : a.master.host = none ∨ a.master.user = none := by
      by_contra h
      simp only [not_or] at h
      exact hcfg h
    simp only [not_and] at hcfg
    refine ⟨?_, ?_, ?_, ?_, ?_⟩
    · constructor
      · rintro ⟨h, hh⟩; cases hh
      · rintro ⟨h1, h2, _⟩; exact absurd h2 (hcfg h1)
    · rintro ⟨h1, h2, _⟩; exact absurd h2 (hcfg h1)
    · intro _; rfl
    · rintro ⟨h1, h2, _⟩; exact absurd h2 (hcfg h1)
    · intro _; exact ⟨rfl, rfl, rfl⟩

/-- C4 at an example: the master is fully set and the attempt succeeds. -/
theorem C4_writer_outcome_witness :
    example_store.master.pass ≠ none ∧ example_store.master.db ≠ none ∧
    (abstract_writer scripted_client example_store (0, [true])).result = .handle 0 ∧
    (abstract_writer scripted_client example_store (0, [true])).trace =
      [.init 0, .connect 0
        { host := some (str "db1.example.org"), user := some (str "writer")
          passwd := some (str "s3cr=t #1"), db := some (str "shop"), port := 3307
          unix_socket := none, client_flag := 32 } true] :=
  ⟨by decide, by decide,
    (C4_writer_outcome scripted_client example_store (0, [true]) (by decide) (by decide)).2.1
      ⟨by decide, by decide, rfl⟩⟩

/-- C5: when the slave has no host or no user, `abstract_reader` is
`abstract_writer`: the same result, the same calls into the client library, the
same final state; every connection attempt is the one on the master and none is
on the slave. -/
theorem C5_reader_without_slave {World : Type} (c : mysql_client World) (a : abstract_t)
    (w : World) (h : a.slave.host = none ∨ a.slave.user = none) :
    abstract_reader c a w = abstract_writer c a w ∧
    ∀ mysql args ok, event.connect mysql args ok ∈ (abstract_reader c a w).trace →
      args =
        { host := a.master.host, user := a.master.user, passwd := a.master.pass
          db := a.master.db, port := a.master.port, unix_socket := none
          client_flag := CLIENT_COMPRESS } ∧
      args ≠
        { host := a.slave.host, user := a.slave.user, passwd := a.slave.pass
          db := a.slave.db, port := a.slave.port, unix_socket := none
          client_flag := CLIENT_COMPRESS } := by
  have heq : abstract_reader c a w = abstract_writer c a w := by
    simp only [abstract_reader, if_pos h]
  refine ⟨heq, ?_⟩
  intro mysql args ok hmem
  rw [heq] at hmem
  by_cases hcfg : a.master.host ≠ none ∧ a.master.user ≠ none
  · have hargs : args = master_args a := by
      unfold abstract_writer at hmem
      rw [if_pos hcfg] at hmem
      by_cases h1 : a.master.pass = none
      · rw [if_pos h1] at hmem; cases hmem
      rw [if_neg h1] at hmem
      by_cases h2 : a.master.db = none
      · rw [if_pos h2] at hmem; cases hmem
      rw [if_neg h2] at hmem
      simp only at hmem
      by_cases h3 : (c.mysql_real_connect (c.mysql_init w).2 (c.mysql_init w).1
          (master_args a)).1 = false
      · rw [if_pos h3] at hmem
        simp only [List.mem_cons, List.mem_singleton, List.not_mem_nil, or_false,
          event.connect.injEq, false_or, reduceCtorEq] at hmem
        exact hmem.2.1
      · rw [if_neg h3] at hmem
        simp only [List.mem_cons, List.mem_singleton, List.not_mem_nil, or_false,
          event.connect.injEq, false_or, reduceCtorEq] at hmem
        exact hmem.2.1
    subst hargs
    refine ⟨rfl, ?_⟩
    intro hargs
    have h4 : a.master.host = a.slave.host := congrArg connect_args.host hargs
    have h5 : a.master.user = a.slave.user := congrArg connect_args.user hargs
    rcases h with h | h
    · exact hcfg.1 (h4.trans h)
    · exact hcfg.2 (h5.trans h)
  · unfold abstract_writer at hmem
    rw [if_neg hcfg] at hmem
    cases hmem

/-- C5 at an example: only the master is set. -/
theorem C5_reader_without_slave_witness :
    (master_only_store.slave.host = none ∨ master_only_store.slave.user = none) ∧
    abstract_reader scripted_client master_only_store (0, [true]) =
      abstract_writer scripted_client master_only_store (0, [true]) :=
  ⟨Or.inl rfl, (C5_reader_without_slave scripted_client master_only_store (0, [true])
    (Or.inl rfl)).1⟩

/-! ## An invariant of the loader: the count and the strings -/

theorem assign_key_cases (key value : List Nat) (st st1 : LoadState)
    (h : assign_key key value st = some st1) : st1 = st ∨ st1.1 = st.1 + 1 := by
  rw [assign_key_classify] at h
  cases hk : classify key with
  | none =>
    rw [hk] at h
    exact Or.inl (Option.some.inj h).symm
  | some k =>
    rw [hk] at h
    simp only at h
    split_ifs at h
    exact Or.inr (by rw [← Option.some.inj h])

theorem process_line_cases (l : List Nat) (st st1 : LoadState)
    (h : process_line l st = some st1) : st1 = st ∨ st1.1 = st.1 + 1 := by
  unfold process_line at h
  simp only at h
  split_ifs at h
  · split at h
    · cases h
    · exact assign_key_cases _ _ _ _ h
  · exact Or.inl (Option.some.inj h).symm
  · exact Or.inl (Option.some.inj h).symm

/-- A property that every accepted line keeps is kept by the loop. -/
theorem load_loop_induct (P : LoadState → Prop)
    (hstep : ∀ l st st1, P st → process_line l st = some st1 → P st1) :
    ∀ (fuel : Nat) (next : Option (List Nat)) (st st1 : LoadState), P st →
      load_loop fuel next st = some st1 → P st1 := by
  intro fuel
  induction fuel with
  | zero => intro next st st1 _ h; simp [load_loop] at h
  | succ f ih =>
    intro next st st1 hP h
    cases next with
    | none =>
      simp only [load_loop] at h
      exact (Option.some.inj h) ▸ hP
    | some buf =>
      simp only [load_loop] at h
      split_ifs at h
      · exact (Option.some.inj h) ▸ hP
      · cases hl : process_line (strsep 10 buf).1 st with
        | none => rw [hl] at h; cases h
        | some st2 =>
          rw [hl] at h
          exact ih _ _ _ (hstep _ _ _ hP hl) h

theorem count_invariant_step (l : List Nat) (st st1 : LoadState) (hP : count_invariant st)
    (h : process_line l st = some st1) : count_invariant st1 := by
  rcases process_line_cases l st st1 h with rfl | h1
  · exact hP
  · refine ⟨by rw [h1]; have := hP.1; omega, fun h0 => ?_⟩
    have := hP.1
    omega

/-- A load on an initialised structure that returns 0 has assigned no string. -/
theorem load_zero_strings (o : Option abstract_t) (file : Option (List Nat)) (a : abstract_t)
    (h : abstract_loadfile (abstract_init o) file = some (0, a)) :
    a.master.host = none ∧ a.master.user = none ∧ a.master.pass = none ∧
      a.master.db = none ∧ a.slave.host = none ∧ a.slave.user = none ∧
      a.slave.pass = none ∧ a.slave.db = none := by
  have hinit : count_invariant (0, { abstract_init o with filecontent := true }) := by
    refine ⟨le_refl _, fun _ => ?_⟩
    cases o <;> exact ⟨rfl, rfl, rfl, rfl, rfl, rfl, rfl, rfl⟩
  unfold abstract_loadfile at h
  split_ifs at h
  cases file with
  | none =>
    simp only [Option.some.injEq, Prod.mk.injEq, true_and] at h
    subst h
    cases o <;> exact ⟨rfl, rfl, rfl, rfl, rfl, rfl, rfl, rfl⟩
  | some content =>
    simp only at h
    split_ifs at h
    exact (load_loop_induct count_invariant count_invariant_step _ _ _ _ hinit h).2 rfl

/-- C6: for a structure with neither endpoint configured (master host or user
absent and slave host or user absent), among them the structure `abstract_init`
gives and the structure a load that returned 0 leaves, `abstract_reader` and
`abstract_writer` return NULL without any call into the client library. -/
theorem C6_nothing_configured {World : Type} (c : mysql_client World) (a : abstract_t)
    (w : World)
    (h : ((a.master.host = none ∨ a.master.user = none) ∧
          (a.slave.host = none ∨ a.slave.user = none)) ∨
        (∃ o, a = abstract_init o) ∨
        (∃ o file, abstract_loadfile (abstract_init o) file = some (0, a))) :
    (abstract_reader c a w).result = .null ∧ (abstract_reader c a w).trace = [] ∧
    (abstract_reader c a w).world = w ∧
    (abstract_writer c a w).result = .null ∧ (abstract_writer c a w).trace = [] ∧
    (abstract_writer c a w).world = w := by
  have hcfg : (a.master.host = none ∨ a.master.user = none) ∧
      (a.slave.host = none ∨ a.slave.user = none) := by
    rcases h with h | ⟨o, rfl⟩ | ⟨o, file, h⟩
    · exact h
    · cases o <;> exact ⟨Or.inl rfl, Or.inl rfl⟩
    · have := load_zero_strings o file a h
      exact ⟨Or.inl this.1, Or.inl this.2.2.2.2.1⟩
  have hm : ¬(a.master.host ≠ none ∧ a.master.user ≠ none) := by
    rintro ⟨h1, h2⟩
    rcases hcfg.1 with h3 | h3
    · exact h1 h3
    · exact h2 h3
  have hw : abstract_writer c a w = { result := .null, trace := [], world := w } := by
    simp only [abstract_writer, if_neg hm]
  have hr : abstract_reader c a w = abstract_writer c a w := by
    simp only [abstract_reader, if_pos hcfg.2]
  rw [hr, hw]
  exact ⟨rfl, rfl, rfl, rfl, rfl, rfl⟩

/-- C6 at an example: the structure left by a load of a file of comments, which
returns 0. -/
theorem C6_nothing_configured_witness :
    abstract_loadfile (abstract_init none) (some (str "# no hosts yet\n")) =
      some (0, { abstract_init none with filecontent := true }) ∧
    (abstract_reader scripted_client { abstract_init none with filecontent := true }
      (0, [true, true])).result = .null ∧
    (abstract_reader scripted_client { abstract_init none with filecontent := true }
      (0, [true, true])).trace = [] :=
  ⟨by decide,
    (C6_nothing_configured scripted_client { abstract_init none with filecontent := true }
      (0, [true, true]) (Or.inr (Or.inr ⟨none, some (str "# no hosts yet\n"), by decide⟩))).1,
    (C6_nothing_configured scripted_client { abstract_init none with filecontent := true }
      (0, [true, true])
      (Or.inr (Or.inr ⟨none, some (str "# no hosts yet\n"), by decide⟩))).2.1⟩

/-- C7 as stated fails: the load of `master_host=db1`, `master_user=root`
succeeds with 2, and on the structure it leaves both selectors stop in the
assertion on the master password. -/
theorem C7_abort_after_successful_load :
    abstract_loadfile (abstract_init none) (some (str "master_host=db1\nmaster_user=root\n")) =
      some (2, half_store) ∧
    (abstract_writer scripted_client half_store (0, [true, true])).result = .aborted ∧
    (abstract_reader scripted_client half_store (0, [true, true])).result = .aborted := by
  decide

theorem abstract_writer_no_abort {World : Type} (c : mysql_client World) (a : abstract_t)
    (w : World)
    (hm : a.master.host ≠ none → a.master.user ≠ none →
      a.master.pass ≠ none ∧ a.master.db ≠ none) :
    (abstract_writer c a w).result = .null ∨
      ∃ mysql, (abstract_writer c a w).result = .handle mysql := by
  unfold abstract_writer
  by_cases hcfg : a.master.host ≠ none ∧ a.master.user ≠ none
  · obtain ⟨hp, hd⟩ := hm hcfg.1 hcfg.2
    rw [if_pos hcfg, if_neg hp, if_neg hd]
    simp only
    by_cases hr : (c.mysql_real_connect (c.mysql_init w).2 (c.mysql_init w).1
        (master_args a)).1 = false
    · rw [if_pos hr]; exact Or.inl rfl
    · rw [if_neg hr]; exact Or.inr ⟨_, rfl⟩
  · rw [if_neg hcfg]; exact Or.inl rfl

/-- C7, amended: on a structure in which each endpoint that has host and user
also has password and database, `abstract_writer` and `abstract_reader` end
with NULL or with a handle, whatever the client library answers: no assertion
fails. -/
theorem C7_two_outcomes {World : Type} (c : mysql_client World) (a : abstract_t) (w : World)
    (hm : a.master.host ≠ none → a.master.user ≠ none →
      a.master.pass ≠ none ∧ a.master.db ≠ none)
    (hs : a.slave.host ≠ none → a.slave.user ≠ none →
      a.slave.pass ≠ none ∧ a.slave.db ≠ none) :
    ((abstract_writer c a w).result = .null ∨
      ∃ mysql, (abstract_writer c a w).result = .handle mysql) ∧
    ((abstract_reader c a w).result = .null ∨
      ∃ mysql, (abstract_reader c a w).result = .handle mysql) := by
  refine ⟨abstract_writer_no_abort c a w hm, ?_⟩
  unfold abstract_reader
  by_cases hcfg : a.slave.host = none ∨ a.slave.user = none
  · rw [if_pos hcfg]; exact abstract_writer_no_abort c a w hm
  · rw [if_neg hcfg]
    simp only [not_or] at hcfg
    obtain ⟨hp, hd⟩ := hs hcfg.1 hcfg.2
    rw [if_neg hp, if_neg hd]
    simp only
    by_cases hr : (c.mysql_real_connect (c.mysql_init w).2 (c.mysql_init w).1
        (slave_args a)).1 = false
    · rw [if_pos hr]; exact abstract_writer_no_abort c a _ hm
    · rw [if_neg hr]; exact Or.inr ⟨_, rfl⟩

/-- C7, amended, at an example: both endpoints fully set, both attempts fail. -/
theorem C7_two_outcomes_witness :
    (example_store.master.host ≠ none → example_store.master.user ≠ none →
      example_store.master.pass ≠ none ∧ example_store.master.db ≠ none) ∧
    (example_store.slave.host ≠ none → example_store.slave.user ≠ none →
      example_store.slave.pass ≠ none ∧ example_store.slave.db ≠ none) ∧
    ((abstract_reader scripted_client example_store (0, [false, false])).result = .null ∨
      ∃ mysql,
        (abstract_reader scripted_client example_store (0, [false, false])).result =
          .handle mysql) :=
  ⟨fun _ _ => by decide, fun _ _ => by decide,
    (C7_two_outcomes scripted_client example_store (0, [false, false])
      (fun _ _ => by decide) (fun _ _ => by decide)).2⟩

/-! ## One line, in general -/

theorem dropWhile_append_cons (p : Nat → Bool) (l r : List Nat) (c : Nat) (hc : p c = false) :
    (l ++ c :: r).dropWhile p = l.dropWhile p ++ c :: r := by
  induction l with
  | nil => simp [List.dropWhile, hc]
  | cons x xs ih =>
    cases hx : p x
    · simp [List.dropWhile, hx]
    · simp [List.dropWhile, hx, ih]

theorem rdropWhile_append_cons (p : Nat → Bool) (l r : List Nat) (c : Nat) (hc : p c = false) :
    (l ++ c :: r).rdropWhile p = l ++ c :: r.rdropWhile p := by
  simp only [List.rdropWhile, List.reverse_append, List.reverse_cons, List.append_assoc,
    List.singleton_append, dropWhile_append_cons p _ _ c hc, List.reverse_reverse]

/-- A line with an `=`: the key is the text before the first `=` without its
leading blanks, the value the text after it without the stripped end of the
line; a key that starts with a comment character makes the line a comment. -/
theorem process_line_with_equals (key value : List Nat) (st : LoadState)
    (he : 61 ∉ key) (h0 : 0 ∉ key) :
    process_line (key ++ 61 :: value) st =
      if (key.dropWhile is_blank).headD 61 ≠ 35 ∧ (key.dropWhile is_blank).headD 61 ≠ 59 then
        assign_key (key.dropWhile is_blank) (value.rdropWhile is_trailing) st
      else some st := by
  have hsub : ∀ x ∈ key.dropWhile is_blank, x ∈ key :=
    fun x hx => (List.dropWhile_suffix _).subset hx
  have hhead : (key.dropWhile is_blank ++ 61 :: value).headD 0 =
      (key.dropWhile is_blank).headD 61 := by
    cases key.dropWhile is_blank <;> rfl
  have hlen : (key.dropWhile is_blank ++ 61 :: value.rdropWhile is_trailing).length > 0 := by
    simp
  simp only [process_line, dropWhile_append_cons is_blank key value 61 (by decide), hhead,
    rdropWhile_append_cons is_trailing _ value 61 (by decide), hlen, if_true,
    strsep_append 61 _ _ (fun h => he (hsub _ h)) (fun h => h0 (hsub _ h)) (by decide)]

/-- A line without `=`: rejected by `assert(value)`, unless it is a comment or
is empty once stripped. -/
theorem process_line_without_equals (l : List Nat) (st : LoadState)
    (he : 61 ∉ l) (h0 : 0 ∉ l) :
    process_line l st =
      if ((l.dropWhile is_blank).headD 0 ≠ 35 ∧ (l.dropWhile is_blank).headD 0 ≠ 59) ∧
          (l.dropWhile is_blank).rdropWhile is_trailing ≠ [] then none
      else some st := by
  have hsub : ∀ x ∈ (l.dropWhile is_blank).rdropWhile is_trailing, x ∈ l :=
    fun x hx => (List.dropWhile_suffix _).subset ((List.rdropWhile_prefix _ _).subset hx)
  unfold process_line
  simp only
  by_cases hc : (l.dropWhile is_blank).headD 0 ≠ 35 ∧ (l.dropWhile is_blank).headD 0 ≠ 59
  · rw [if_pos hc]
    by_cases hn : (l.dropWhile is_blank).rdropWhile is_trailing = []
    · simp [hn]
    · have hlen : ((l.dropWhile is_blank).rdropWhile is_trailing).length > 0 :=
        List.length_pos.mpr hn
      rw [if_pos hlen, if_pos ⟨hc, hn⟩,
        strsep_none 61 _ (fun h => he (hsub _ h)) (fun h => h0 (hsub _ h))]
  · rw [if_neg hc, if_neg (fun h => hc h.1)]

/-! ## Theorems on malformed, blank and comment lines -/

theorem config_text_eq_nil (lines : List (List Nat)) (final_newline : Bool)
    (h : config_text lines final_newline = []) : ∀ l ∈ lines, l = [] := by
  cases lines with
  | nil => intro l hl; cases hl
  | cons l ls =>
    cases ls with
    | nil =>
      intro x hx
      rcases List.mem_singleton.mp hx with rfl
      simp only [config_text, List.append_eq_nil] at h
      exact h.1
    | cons l1 ls1 => simp [config_text] at h

theorem headD_of_stripped (l : List Nat) (hne : stripped l ≠ []) :
    (l.dropWhile is_blank).headD 0 = (stripped l).headD 0 ∧
      (stripped l).head? = some ((stripped l).headD 0) := by
  obtain ⟨r, hr⟩ := List.rdropWhile_prefix is_trailing (l.dropWhile is_blank)
  unfold stripped at hne ⊢
  generalize (l.dropWhile is_blank).rdropWhile is_trailing = u at hr hne ⊢
  generalize l.dropWhile is_blank = t at hr ⊢
  subst hr
  cases u with
  | nil => exact absurd rfl hne
  | cons x xs => exact ⟨rfl, rfl⟩

/-- A line that is not empty once stripped, is not a comment and has no `=`
fails `assert(value)`. -/
theorem process_line_malformed (l : List Nat) (st : LoadState) (h0 : 0 ∉ l)
    (hne : stripped l ≠ [])
    (hc : (stripped l).head? ≠ some 35 ∧ (stripped l).head? ≠ some 59)
    (he : 61 ∉ l) : process_line l st = none := by
  obtain ⟨h1, h2⟩ := headD_of_stripped l hne
  rw [process_line_without_equals l st he h0, if_pos]
  refine ⟨⟨?_, ?_⟩, hne⟩
  · rw [h1]; intro h; rw [h] at h2; exact hc.1 h2
  · rw [h1]; intro h; rw [h] at h2; exact hc.2 h2

/-- C8: a file with a line that, once stripped of leading spaces and tabs and of
trailing spaces, tabs and carriage returns, is not empty, does not start with
`#` or `;` and has no `=` (no NUL byte in that line or before it):
`abstract_loadfile` stops in an assertion, whatever the structure and the other
lines are. -/
theorem C8_line_without_equals_aborts (a : abstract_t) (before after : List (List Nat))
    (line : List Nat) (final_newline : Bool)
    (hnl : ∀ l ∈ before ++ line :: after, 10 ∉ l)
    (h0 : ∀ l ∈ before ++ [line], 0 ∉ l)
    (hne : stripped line ≠ [])
    (hc : (stripped line).head? ≠ some 35 ∧ (stripped line).head? ≠ some 59)
    (he : 61 ∉ line) :
    abstract_loadfile a (some (config_text (before ++ line :: after) final_newline)) = none := by
  cases hf : a.filecontent with
  | true => simp [abstract_loadfile, hf]
  | false =>
    have hline : line ≠ [] := by
      rintro rfl
      exact hne (by simp [stripped, List.rdropWhile])
    have htext : config_text (before ++ line :: after) final_newline ≠ [] := fun h =>
      hline (config_text_eq_nil _ _ h line (by simp))
    have h0l : 0 ∉ line := h0 line (by simp)
    have hcl : c_lines (line :: after) = line :: c_lines after := by
      simp only [c_lines, h0l, if_false]
    rw [abstract_loadfile_text a _ _ hf hnl htext,
      c_lines_append before _ (fun l hl => h0 l (by simp [hl])), hcl, load_lines_append]
    cases load_lines before (0, { a with filecontent := true }) with
    | none => rfl
    | some st =>
      simp only [Option.bind, load_lines, process_line_malformed line st h0l hne hc he]

/-- C8 at an example: the second line has no `=`. -/
theorem C8_line_without_equals_aborts_witness :
    stripped (str "  master_user root \r") ≠ [] ∧
    61 ∉ str "  master_user root \r" ∧
    abstract_loadfile (abstract_init none)
        (some (config_text
          ([str "master_host=db1"] ++ str "  master_user root \r" :: [str "# end"]) true)) =
      none :=
  ⟨by decide, by decide,
    C8_line_without_equals_aborts (abstract_init none) [str "master_host=db1"] [str "# end"]
      (str "  master_user root \r") true (by decide) (by decide) (by decide) (by decide)
      (by decide)⟩

theorem process_line_skipped (l : List Nat) (st : LoadState)
    (h : blank_line l ∨ comment_line l) : process_line l st = some st := by
  unfold process_line
  simp only
  by_cases hc : (l.dropWhile is_blank).headD 0 ≠ 35 ∧ (l.dropWhile is_blank).headD 0 ≠ 59
  · rw [if_pos hc]
    rcases h with hb | hcm
    · have hall : ∀ x ∈ l.dropWhile is_blank, is_trailing x = true := by
        intro x hx
        rcases hb x ((List.dropWhile_suffix _).subset hx) with rfl | rfl | rfl <;> rfl
      rw [List.rdropWhile_eq_nil_iff.mpr hall]
      rfl
    · exfalso
      rcases hcm with h35 | h59
      · cases hl : l.dropWhile is_blank with
        | nil => rw [hl] at h35; cases h35
        | cons x xs =>
          rw [hl] at h35 hc
          simp only [List.head?_cons, Option.some.injEq] at h35
          exact hc.1 h35
      · cases hl : l.dropWhile is_blank with
        | nil => rw [hl] at h59; cases h59
        | cons x xs =>
          rw [hl] at h59 hc
          simp only [List.head?_cons, Option.some.injEq] at h59
          exact hc.2 h59
  · rw [if_neg hc]

theorem load_lines_skipped (lines : List (List Nat)) (st : LoadState)
    (h : ∀ l ∈ lines, blank_line l ∨ comment_line l) : load_lines lines st = some st := by
  induction lines with
  | nil => rfl
  | cons l ls ih =>
    simp only [load_lines, process_line_skipped l st (h l (List.mem_cons_self _ _))]
    exact ih (fun x hx => h x (List.mem_cons_of_mem _ hx))

theorem blank_line_cstr (l : List Nat) (h : blank_line l) : blank_line (cstr l) :=
  fun c hc => h c (cstr_subset l c hc)

theorem comment_line_cstr (l : List Nat) (h : comment_line l) : comment_line (cstr l) := by
  induction l with
  | nil => exact h
  | cons x xs ih =>
    cases hx : is_blank x
    · have hd : (x :: xs).dropWhile is_blank = x :: xs := by simp [List.dropWhile, hx]
      have hx0 : (x != 0) = true := by
        unfold comment_line at h
        rw [hd] at h
        simp only [List.head?_cons, Option.some.injEq] at h
        rcases h with rfl | rfl <;> rfl
      have hc : cstr (x :: xs) = x :: cstr xs := by simp [cstr, List.takeWhile, hx0]
      unfold comment_line at h ⊢
      rw [hd] at h
      rw [hc]
      simpa [List.dropWhile, hx] using h
    · have hx0 : (x != 0) = true := by
        have : x = 32 ∨ x = 9 := by simpa [is_blank] using hx
        rcases this with rfl | rfl <;> rfl
      have hc : cstr (x :: xs) = x :: cstr xs := by simp [cstr, List.takeWhile, hx0]
      have hxs : comment_line xs := by
        unfold comment_line at h ⊢
        simpa [List.dropWhile, hx] using h
      have := ih hxs
      unfold comment_line at this ⊢
      rw [hc]
      simpa [List.dropWhile, hx] using this

/-- C9: a non-empty file whose lines are all blank (empty, or only spaces, tabs
and carriage returns) or comments (first character after leading spaces and
tabs `#` or `;`): `abstract_loadfile` on an initialised structure returns 0 and
leaves every string member NULL and both ports 0. -/
theorem C9_only_comments_and_blanks (o : Option abstract_t) (lines : List (List Nat))
    (final_newline : Bool)
    (hnl : ∀ l ∈ lines, 10 ∉ l)
    (hne : config_text lines final_newline ≠ [])
    (h : ∀ l ∈ lines, blank_line l ∨ comment_line l) :
    abstract_loadfile (abstract_init o) (some (config_text lines final_newline)) =
      some (0,
        { filecontent := true
          master := { host := none, user := none, pass := none, db := none, port := 0 }
          slave := { host := none, user := none, pass := none, db := none, port := 0 }
          internally_created := (abstract_init o).internally_created }) := by
  have hfresh : (abstract_init o).filecontent = false := by cases o <;> rfl
  have hc : ∀ l ∈ c_lines lines, blank_line l ∨ comment_line l := by
    intro l hl
    obtain ⟨l1, h1, rfl⟩ := c_lines_mem lines l hl
    rcases h l1 h1 with hb | hcm
    · exact Or.inl (blank_line_cstr l1 hb)
    · exact Or.inr (comment_line_cstr l1 hcm)
  rw [abstract_loadfile_text _ _ _ hfresh hnl hne, load_lines_skipped _ _ hc]
  cases o <;> rfl

/-- C9 at an example: comments, an empty line and a line of blanks, with DOS
line ends. -/
theorem C9_only_comments_and_blanks_witness :
    (∀ l ∈ [str "# hosts\r", str "", str "  ; none yet\r", str " \t \r"],
      blank_line l ∨ comment_line l) ∧
    abstract_loadfile (abstract_init none)
        (some (config_text [str "# hosts\r", str "", str "  ; none yet\r", str " \t \r"] true)) =
      some (0,
        { filecontent := true
          master := { host := none, user := none, pass := none, db := none, port := 0 }
          slave := { host := none, user := none, pass := none, db := none, port := 0 }
          internally_created := 1 }) :=
  have hlines : ∀ l ∈ [str "# hosts\r", str "", str "  ; none yet\r", str " \t \r"],
      blank_line l ∨ comment_line l := by
    intro l hl
    simp only [List.mem_cons, List.mem_singleton, List.not_mem_nil, or_false] at hl
    rcases hl with rfl | rfl | rfl | rfl
    · exact Or.inr (Or.inl (by decide))
    · exact Or.inl (by intro c hc; cases hc)
    · exact Or.inr (Or.inr (by decide))
    · exact Or.inl (by decide)
  ⟨hlines,
    C9_only_comments_and_blanks none _ true (by decide) (by decide) hlines⟩

/-! ## Letter case of the key -/

theorem tolower_eq_nonletter (x y c : Nat) (hc : c < 65 ∨ (90 < c ∧ c < 97) ∨ 122 < c)
    (h : tolower x = tolower y) : x = c ↔ y = c := by
  unfold tolower at h
  split_ifs at h <;> omega

theorem is_blank_tolower : is_blank ∘ tolower = is_blank := by
  funext x
  simp only [Function.comp, is_blank, tolower]
  split_ifs with h
  · have h1 : x + 32 ≠ 32 := by omega
    have h2 : x + 32 ≠ 9 := by omega
    have h3 : x ≠ 32 := by omega
    have h4 : x ≠ 9 := by omega
    simp [h1, h2, h3, h4]
  · rfl

theorem is_trailing_tolower (x : Nat) : is_trailing (tolower x) = is_trailing x := by
  simp only [is_trailing, tolower]
  split_ifs with h
  · have h1 : x + 32 ≠ 32 := by omega
    have h2 : x + 32 ≠ 9 := by omega
    have h3 : x + 32 ≠ 13 := by omega
    have h4 : x ≠ 32 := by omega
    have h5 : x ≠ 9 := by omega
    have h6 : x ≠ 13 := by omega
    simp [h1, h2, h3, h4, h5, h6]
  · rfl

theorem strcasecmp_congr (a1 a2 : List Nat) (h : a1.map tolower = a2.map tolower) :
    ∀ b, strcasecmp a1 b = strcasecmp a2 b := by
  induction a1 generalizing a2 with
  | nil =>
    cases a2 with
    | nil => intro b; rfl
    | cons y ys => simp at h
  | cons x xs ih =>
    cases a2 with
    | nil => simp at h
    | cons y ys =>
      simp only [List.map_cons, List.cons.injEq] at h
      intro b
      cases b with
      | nil => simp [strcasecmp, h.1]
      | cons z zs => simp only [strcasecmp, h.1, ih ys h.2 zs]

theorem assign_key_congr (k1 k2 value : List Nat) (st : LoadState)
    (h : k1.map tolower = k2.map tolower) : assign_key k1 value st = assign_key k2 value st := by
  simp only [assign_key, strcasecmp_congr k1 k2 h]

theorem mem_nonletter_congr (l1 l2 : List Nat) (c : Nat)
    (hc : c < 65 ∨ (90 < c ∧ c < 97) ∨ 122 < c) (h : l1.map tolower = l2.map tolower) :
    c ∈ l1 ↔ c ∈ l2 := by
  induction l1 generalizing l2 with
  | nil =>
    cases l2 with
    | nil => rfl
    | cons y ys => simp at h
  | cons x xs ih =>
    cases l2 with
    | nil => simp at h
    | cons y ys =>
      simp only [List.map_cons, List.cons.injEq] at h
      have := tolower_eq_nonletter x y c hc h.1
      simp only [List.mem_cons, ih ys h.2]
      constructor
      · rintro (h1 | h1)
        · exact Or.inl (this.mp h1.symm).symm
        · exact Or.inr h1
      · rintro (h1 | h1)
        · exact Or.inl (this.mpr h1.symm).symm
        · exact Or.inr h1

theorem dropWhile_is_blank_congr (l1 l2 : List Nat) (h : l1.map tolower = l2.map tolower) :
    (l1.dropWhile is_blank).map tolower = (l2.dropWhile is_blank).map tolower := by
  have := List.dropWhile_map tolower is_blank
  rw [is_blank_tolower] at this
  rw [← this, ← this, h]

theorem headD_nonletter_congr (l1 l2 : List Nat) (d c : Nat)
    (hc : c < 65 ∨ (90 < c ∧ c < 97) ∨ 122 < c) (h : l1.map tolower = l2.map tolower) :
    l1.headD d = c ↔ l2.headD d = c := by
  cases l1 with
  | nil =>
    cases l2 with
    | nil => rfl
    | cons y ys => simp at h
  | cons x xs =>
    cases l2 with
    | nil => simp at h
    | cons y ys =>
      simp only [List.map_cons, List.cons.injEq] at h
      exact tolower_eq_nonletter x y c hc h.1

theorem all_trailing_congr (l1 l2 : List Nat) (h : l1.map tolower = l2.map tolower) :
    (∀ x ∈ l1, is_trailing x = true) ↔ (∀ x ∈ l2, is_trailing x = true) := by
  have key : ∀ l : List Nat,
      (∀ x ∈ l, is_trailing x = true) ↔ (∀ y ∈ l.map tolower, is_trailing y = true) := by
    intro l
    simp only [List.mem_map, forall_exists_index, and_imp, forall_apply_eq_imp_iff₂,
      is_trailing_tolower]
  rw [key l1, key l2, h]

theorem first_split (c : Nat) (l : List Nat) (h : c ∈ l) :
    ∃ s t, l = s ++ c :: t ∧ c ∉ s := by
  induction l with
  | nil => cases h
  | cons x xs ih =>
    by_cases hx : x = c
    · exact ⟨[], xs, by simp [hx], by simp⟩
    · rcases List.mem_cons.mp h with h1 | h1
      · exact absurd h1.symm hx
      · obtain ⟨s, t, hst, hs⟩ := ih h1
        refine ⟨x :: s, t, by simp [hst], ?_⟩
        simp only [List.mem_cons, not_or]
        exact ⟨fun h2 => hx h2.symm, hs⟩

theorem key_case_variant_map (l1 l2 : List Nat) (h : key_case_variant l1 l2) :
    l1.map tolower = l2.map tolower := by
  obtain ⟨k1, k2, rest, rfl, rfl, -, hk⟩ := h
  simp [hk]

theorem process_line_no_equals_congr (l1 l2 : List Nat) (st : LoadState)
    (h : l1.map tolower = l2.map tolower) (he : 61 ∉ l1) (h0 : 0 ∉ l1) :
    process_line l1 st = process_line l2 st := by
  have he2 : 61 ∉ l2 := fun h2 => he ((mem_nonletter_congr l1 l2 61 (by omega) h).mpr h2)
  have h02 : 0 ∉ l2 := fun h2 => h0 ((mem_nonletter_congr l1 l2 0 (by omega) h).mpr h2)
  have hd := dropWhile_is_blank_congr l1 l2 h
  rw [process_line_without_equals l1 st he h0, process_line_without_equals l2 st he2 h02]
  have h35 := headD_nonletter_congr _ _ 0 35 (by omega) hd
  have h59 := headD_nonletter_congr _ _ 0 59 (by omega) hd
  have hnil : (l1.dropWhile is_blank).rdropWhile is_trailing = [] ↔
      (l2.dropWhile is_blank).rdropWhile is_trailing = [] := by
    rw [List.rdropWhile_eq_nil_iff, List.rdropWhile_eq_nil_iff]
    exact all_trailing_congr _ _ hd
  simp only [ne_eq, h35, h59, hnil]

theorem process_line_case_variant (l1 l2 : List Nat) (st : LoadState)
    (h : key_case_variant l1 l2) (h0 : 0 ∉ l1) : process_line l1 st = process_line l2 st := by
  have hmap := key_case_variant_map l1 l2 h
  obtain ⟨k1, k2, rest, rfl, rfl, he, hk⟩ := h
  by_cases hr : 61 ∈ rest
  · obtain ⟨r, v, rfl, hr61⟩ := first_split 61 rest hr
    have hK : (k1 ++ r).map tolower = (k2 ++ r).map tolower := by simp [hk]
    have he1 : 61 ∉ k1 ++ r := by simp [he, hr61]
    have he2 : 61 ∉ k2 ++ r :=
      fun h2 => he1 ((mem_nonletter_congr _ _ 61 (by omega) hK).mpr h2)
    have h01 : 0 ∉ k1 ++ r := fun h2 => h0 (by
      simp only [List.mem_append, List.mem_cons] at h2 ⊢
      rcases h2 with h2 | h2
      · exact Or.inl h2
      · exact Or.inr (Or.inl h2))
    have h02 : 0 ∉ k2 ++ r :=
      fun h2 => h01 ((mem_nonletter_congr _ _ 0 (by omega) hK).mpr h2)
    have hd := dropWhile_is_blank_congr _ _ hK
    have h35 := headD_nonletter_congr _ _ 61 35 (by omega) hd
    have h59 := headD_nonletter_congr _ _ 61 59 (by omega) hd
    rw [← List.append_assoc, ← List.append_assoc, process_line_with_equals _ v st he1 h01,
      process_line_with_equals _ v st he2 h02, assign_key_congr _ _ _ st hd]
    simp only [ne_eq, h35, h59]
  · exact process_line_no_equals_congr _ _ st hmap (by simp [he, hr]) h0

theorem load_lines_case_variant (lines1 lines2 : List (List Nat))
    (h : List.Forall₂ key_case_variant lines1 lines2) (h0 : ∀ l ∈ lines1, 0 ∉ l) :
    ∀ st, load_lines lines1 st = load_lines lines2 st := by
  induction h with
  | nil => intro st; rfl
  | cons hl _ ih =>
    intro st
    simp only [load_lines, process_line_case_variant _ _ st hl (h0 _ (List.mem_cons_self _ _))]
    cases process_line _ st with
    | none => rfl
    | some st1 => exact ih (fun x hx => h0 x (List.mem_cons_of_mem _ hx)) st1

theorem config_text_length_congr (lines1 lines2 : List (List Nat)) (final_newline : Bool)
    (h : List.Forall₂ (fun l1 l2 : List Nat => l1.length = l2.length) lines1 lines2) :
    (config_text lines1 final_newline).length = (config_text lines2 final_newline).length := by
  induction h with
  | nil => rfl
  | cons hl hrest ih =>
    cases hrest with
    | nil => simp [config_text, hl]
    | cons hl1 hrest1 =>
      simp only [config_text, List.length_append, List.length_cons] at ih ⊢
      omega

theorem forall₂_transfer {R : List Nat → List Nat → Prop} {P Q : List Nat → Prop}
    (hPQ : ∀ x y, R x y → P x → Q y) (lines1 lines2 : List (List Nat))
    (h : List.Forall₂ R lines1 lines2) (hP : ∀ x ∈ lines1, P x) : ∀ y ∈ lines2, Q y := by
  induction h with
  | nil => intro y hy; cases hy
  | cons hl _ ih =>
    intro y hy
    rcases List.mem_cons.mp hy with rfl | hy1
    · exact hPQ _ _ hl (hP _ (List.mem_cons_self _ _))
    · exact ih (fun x hx => hP x (List.mem_cons_of_mem _ hx)) y hy1

theorem ne_zero_tolower : (fun c : Nat => c != 0) ∘ tolower = fun c : Nat => c != 0 := by
  funext x
  simp only [Function.comp, tolower]
  split_ifs with h
  · have h1 : x + 32 ≠ 0 := by omega
    have h2 : x ≠ 0 := by omega
    simp [h1, h2]
  · rfl

theorem cstr_congr (l1 l2 : List Nat) (h : l1.map tolower = l2.map tolower) :
    (cstr l1).map tolower = (cstr l2).map tolower := by
  have := List.takeWhile_map tolower (fun c : Nat => c != 0)
  rw [ne_zero_tolower] at this
  unfold cstr
  rw [← this, ← this, h]

theorem key_case_variant_cstr (l1 l2 : List Nat) (h : key_case_variant l1 l2) :
    key_case_variant (cstr l1) (cstr l2) := by
  obtain ⟨k1, k2, rest, rfl, rfl, he, hk⟩ := h
  have h0 : 0 ∈ k1 ↔ 0 ∈ k2 := mem_nonletter_congr k1 k2 0 (by omega) hk
  rw [cstr_append, cstr_append]
  by_cases hk0 : 0 ∈ k1
  · rw [if_pos hk0, if_pos (h0.mp hk0)]
    exact ⟨cstr k1, cstr k2, [], by simp, by simp, fun h => he (cstr_subset k1 61 h),
      cstr_congr k1 k2 hk⟩
  · rw [if_neg hk0, if_neg (fun h => hk0 (h0.mpr h))]
    exact ⟨k1, k2, cstr rest, rfl, rfl, he, hk⟩

theorem c_lines_case_variant (lines1 lines2 : List (List Nat))
    (h : List.Forall₂ key_case_variant lines1 lines2) :
    List.Forall₂ key_case_variant (c_lines lines1) (c_lines lines2) := by
  induction h with
  | nil => exact .nil
  | @cons l1 l2 ls1 ls2 hl _ ih =>
    have h0 : 0 ∈ l1 ↔ 0 ∈ l2 :=
      mem_nonletter_congr l1 l2 0 (by omega) (key_case_variant_map l1 l2 hl)
    unfold c_lines
    by_cases hl0 : 0 ∈ l1
    · rw [if_pos hl0, if_pos (h0.mp hl0)]
      exact .cons (key_case_variant_cstr l1 l2 hl) .nil
    · rw [if_neg hl0, if_neg (fun h => hl0 (h0.mpr h))]
      exact .cons hl ih

/-- C10: two files whose lines differ only in the case of ASCII letters before
the first `=` of the line: `abstract_loadfile` ends the same way on both, with
the same returned count and the same structure, or with a failed assertion on
both. -/
theorem C10_key_case_insensitive (a : abstract_t) (lines1 lines2 : List (List Nat))
    (final_newline : Bool)
    (hv : List.Forall₂ key_case_variant lines1 lines2)
    (hnl : ∀ l ∈ lines1, 10 ∉ l) :
    abstract_loadfile a (some (config_text lines1 final_newline)) =
      abstract_loadfile a (some (config_text lines2 final_newline)) := by
  have hnl2 : ∀ l ∈ lines2, 10 ∉ l :=
    forall₂_transfer (P := fun l => 10 ∉ l) (Q := fun l => 10 ∉ l)
      (fun x y hxy hx hy =>
        hx ((mem_nonletter_congr x y 10 (by omega) (key_case_variant_map x y hxy)).mpr hy))
      lines1 lines2 hv hnl
  have hlen : (config_text lines1 final_newline).length =
      (config_text lines2 final_newline).length := by
    apply config_text_length_congr
    refine hv.imp (fun x y hxy => ?_)
    have := congrArg List.length (key_case_variant_map x y hxy)
    simpa using this
  cases hf : a.filecontent with
  | true => simp [abstract_loadfile, hf]
  | false =>
    by_cases h1 : config_text lines1 final_newline = []
    · have h2 : config_text lines2 final_newline = [] := by
        apply List.eq_nil_of_length_eq_zero
        rw [← hlen, h1]
        rfl
      rw [h1, h2]
    · have h2 : config_text lines2 final_newline ≠ [] := by
        intro h
        apply h1
        apply List.eq_nil_of_length_eq_zero
        rw [hlen, h]
        rfl
      rw [abstract_loadfile_text a _ _ hf hnl h1, abstract_loadfile_text a _ _ hf hnl2 h2]
      exact load_lines_case_variant _ _ (c_lines_case_variant lines1 lines2 hv)
        (c_lines_no_nul lines1) _

/-- C10 at an example: `Master_Host=db1` against `master_host=db1`, and two more
lines. -/
theorem C10_key_case_insensitive_witness :
    List.Forall₂ key_case_variant
      [str "Master_Host=db1", str "SLAVE_port=3308", str "# Hosts=none"]
      [str "master_host=db1", str "slave_PORT=3308", str "# hosts=none"] ∧
    abstract_loadfile (abstract_init none)
        (some (config_text
          [str "Master_Host=db1", str "SLAVE_port=3308", str "# Hosts=none"] true)) =
      abstract_loadfile (abstract_init none)
        (some (config_text
          [str "master_host=db1", str "slave_PORT=3308", str "# hosts=none"] true)) :=
  have hv : List.Forall₂ key_case_variant
      [str "Master_Host=db1", str "SLAVE_port=3308", str "# Hosts=none"]
      [str "master_host=db1", str "slave_PORT=3308", str "# hosts=none"] :=
    .cons ⟨str "Master_Host", str "master_host", str "=db1", by decide, by decide, by decide,
        by decide⟩
      (.cons ⟨str "SLAVE_port", str "slave_PORT", str "=3308", by decide, by decide,
          by decide, by decide⟩
        (.cons ⟨str "# Hosts", str "# hosts", str "=none", by decide, by decide, by decide,
            by decide⟩ .nil))
  ⟨hv, C10_key_case_insensitive (abstract_init none) _ _ true hv (by decide)⟩

/-! ## Files that cannot be read, and what the returned count counts -/

/-- C13 as stated fails for a file that cannot be opened: `fopen` returns NULL,
the body of `if (fp)` is skipped and the call returns normally, with the count
0 and the structure untouched. -/
theorem C13_unopened_file_returns_zero :
    abstract_loadfile (abstract_init none) none = some (0, abstract_init none) := by
  decide

/-- C13, amended: on a structure that has not been loaded, a file that cannot be
opened makes `abstract_loadfile` return 0 and leave the structure as it was, so
with no member assigned; an empty file makes it stop in `assert(buflen > 0)`,
which comes before the buffer is allocated and before any line is read. -/
theorem C13_no_file_or_empty_file (a : abstract_t) (hfresh : a.filecontent = false) :
    abstract_loadfile a none = some (0, a) ∧ abstract_loadfile a (some []) = none := by
  simp [abstract_loadfile, hfresh]

/-- C13, amended, at an example: the structure `abstract_init` gives. -/
theorem C13_no_file_or_empty_file_witness :
    (abstract_init none).filecontent = false ∧
    abstract_loadfile (abstract_init none) none = some (0, abstract_init none) ∧
    abstract_loadfile (abstract_init none) (some []) = none :=
  ⟨rfl, C13_no_file_or_empty_file (abstract_init none) rfl⟩

/-- C14 at failing inputs: the count `abstract_loadfile` returns goes up by one
for every recognised line, not for every host.  Four lines that configure the
master give 4 for one configured host, and a lone `master_host` line gives 1
for none (each pair below is the returned count and the number of configured
hosts of the structure the load leaves). -/
theorem C14_count_is_not_hosts :
    (abstract_loadfile (abstract_init none)
        (some (str "master_host=db1\nmaster_user=root\nmaster_pass=pw\nmaster_db=shop\n"))).map
      (fun r => (r.1, configured_hosts r.2)) = some (4, 1) ∧
    (abstract_loadfile (abstract_init none) (some (str "master_host=db1\n"))).map
      (fun r => (r.1, configured_hosts r.2)) = some (1, 0) := by
  constructor <;> decide

/-! ## The version of the header -/

/-- C15 at the shipped sources: the header defines the version as `0x100`, the
guard of `libabstract.c` rejects every header but one with `0x200`; a library
that compiles returns `0x200`, which differs from the constant of the shipped
header. -/
theorem C15_header_version_rejected :
    LIBABSTRACT_VERSION = 0x00000100 ∧
    header_version_accepted LIBABSTRACT_VERSION = false ∧
    header_version_accepted 0x00000200 = true ∧
    abstract_version 0x00000200 = some 0x00000200 ∧
    abstract_version 0x00000200 ≠ some LIBABSTRACT_VERSION := by
  decide

/-! ## More theorems on the selectors -/

/-- C18 as stated fails for empty strings: after `master_pass=` and `master_db=`
the two members point at empty strings, the assertions (which test the pointers)
pass, and `abstract_writer` does attempt the connection, with an empty password
and an empty database name. -/
theorem C18_attempt_with_empty_strings :
    abstract_loadfile (abstract_init none)
        (some (str "master_host=db1\nmaster_user=root\nmaster_pass=\nmaster_db=\n")) =
      some (4, empty_secret_store) ∧
    (abstract_writer scripted_client empty_secret_store (0, [true])).trace =
      [.init 0,
       .connect 0
        { host := some (str "db1"), user := some (str "root"), passwd := some [], db := some []
          port := 0, unix_socket := none, client_flag := CLIENT_COMPRESS } true] := by
  decide

/-- C18, amended: when master host and user are present and the master password
or the master database is absent (NULL), `abstract_writer` makes no call into
the client library: it stops in the assertion for the missing member. -/
theorem C18_no_attempt_without_secret {World : Type} (c : mysql_client World)
    (a : abstract_t) (w : World) (hh : a.master.host ≠ none) (hu : a.master.user ≠ none)
    (hs : a.master.pass = none ∨ a.master.db = none) :
    (abstract_writer c a w).trace = [] ∧ (abstract_writer c a w).result = .aborted := by
  unfold abstract_writer
  rw [if_pos ⟨hh, hu⟩]
  by_cases hp : a.master.pass = none
  · rw [if_pos hp]; exact ⟨rfl, rfl⟩
  · rw [if_neg hp]
    rcases hs with hs | hs
    · exact absurd hs hp
    · rw [if_pos hs]; exact ⟨rfl, rfl⟩

/-- C18, amended, at an example: host and user set, password and database
absent. -/
theorem C18_no_attempt_without_secret_witness :
    half_store.master.host ≠ none ∧ half_store.master.user ≠ none ∧
    (half_store.master.pass = none ∨ half_store.master.db = none) ∧
    (abstract_writer scripted_client half_store (0, [true])).trace = [] :=
  ⟨by decide, by decide, Or.inl rfl,
    (C18_no_attempt_without_secret scripted_client half_store (0, [true]) (by decide)
      (by decide) (Or.inl rfl)).1⟩

/-! ## The life of a handle -/

theorem handle_run_append (xs ys : List event) (live : List (Nat × handle_state)) :
    handle_run (xs ++ ys) live = (handle_run xs live).bind (handle_run ys) := by
  induction xs generalizing live with
  | nil => rfl
  | cons e es ih =>
    simp only [List.cons_append, handle_run]
    cases handle_step live e with
    | none => rfl
    | some live1 => exact ih live1

theorem handle_run_failed_attempt (mysql : Nat) (args : connect_args) :
    handle_run [.init mysql, .connect mysql args false, .close mysql] [] = some [] := by
  simp [handle_run, handle_step, List.lookup]

theorem handle_run_good_attempt (mysql : Nat) (args : connect_args) :
    handle_run [.init mysql, .connect mysql args true] [] = some [(mysql, .connected)] := by
  simp [handle_run, handle_step, List.lookup]

/-- The three ways a call of `abstract_writer` can go. -/
theorem abstract_writer_shape {World : Type} (c : mysql_client World) (a : abstract_t)
    (w : World) :
    ((abstract_writer c a w).trace = [] ∧
      ((abstract_writer c a w).result = .null ∨ (abstract_writer c a w).result = .aborted)) ∨
    (∃ mysql, (abstract_writer c a w).trace =
        [.init mysql, .connect mysql (master_args a) false, .close mysql] ∧
      (abstract_writer c a w).result = .null) ∨
    (∃ mysql, (abstract_writer c a w).trace =
        [.init mysql, .connect mysql (master_args a) true] ∧
      (abstract_writer c a w).result = .handle mysql) := by
  unfold abstract_writer
  by_cases hcfg : a.master.host ≠ none ∧ a.master.user ≠ none
  · rw [if_pos hcfg]
    by_cases hp : a.master.pass = none
    · rw [if_pos hp]; exact Or.inl ⟨rfl, Or.inr rfl⟩
    rw [if_neg hp]
    by_cases hd : a.master.db = none
    · rw [if_pos hd]; exact Or.inl ⟨rfl, Or.inr rfl⟩
    rw [if_neg hd]
    simp only
    by_cases hr : (c.mysql_real_connect (c.mysql_init w).2 (c.mysql_init w).1
        (master_args a)).1 = false
    · rw [if_pos hr]; exact Or.inr (Or.inl ⟨_, rfl, rfl⟩)
    · rw [if_neg hr]; exact Or.inr (Or.inr ⟨_, rfl, rfl⟩)
  · rw [if_neg hcfg]; exact Or.inl ⟨rfl, Or.inl rfl⟩

theorem abstract_writer_handles {World : Type} (c : mysql_client World) (a : abstract_t)
    (w : World) :
    handles_ok (abstract_writer c a w).trace (abstract_writer c a w).result ∧
      (connect_attempts (abstract_writer c a w).trace).Sublist [master_args a] := by
  rcases abstract_writer_shape c a w with ⟨ht, hr | hr⟩ | ⟨mysql, ht, hr⟩ | ⟨mysql, ht, hr⟩
  · rw [ht, hr]; exact ⟨rfl, by simp [connect_attempts]⟩
  · rw [ht, hr]; exact ⟨rfl, by simp [connect_attempts]⟩
  · rw [ht, hr]
    exact ⟨handle_run_failed_attempt mysql _, by simp [connect_attempts]⟩
  · rw [ht, hr]
    exact ⟨handle_run_good_attempt mysql _, by simp [connect_attempts]⟩

/-- C19: in every call of `abstract_writer` and of `abstract_reader`, whatever
the structure and the client library, the calls into the library keep to the
life of a handle (initialised, one connection attempt, closed only and exactly
once when the attempt failed); the handle returned is live, connected and the
only one left, and nothing is left when NULL is returned; `abstract_writer`
attempts at most the master once, `abstract_reader` at most the slave once and
then the master once. -/
theorem C19_handle_discipline {World : Type} (c : mysql_client World) (a : abstract_t)
    (w : World) :
    handles_ok (abstract_writer c a w).trace (abstract_writer c a w).result ∧
    (connect_attempts (abstract_writer c a w).trace).Sublist [master_args a] ∧
    handles_ok (abstract_reader c a w).trace (abstract_reader c a w).result ∧
    (connect_attempts (abstract_reader c a w).trace).Sublist
      [slave_args a, master_args a] := by
  obtain ⟨hw1, hw2⟩ := abstract_writer_handles c a w
  refine ⟨hw1, hw2, ?_⟩
  unfold abstract_reader
  by_cases hcfg : a.slave.host = none ∨ a.slave.user = none
  · rw [if_pos hcfg]
    exact ⟨hw1, hw2.trans (List.sublist_cons_self _ _)⟩
  rw [if_neg hcfg]
  by_cases hp : a.slave.pass = none
  · rw [if_pos hp]; exact ⟨rfl, by simp [connect_attempts]⟩
  rw [if_neg hp]
  by_cases hd : a.slave.db = none
  · rw [if_pos hd]; exact ⟨rfl, by simp [connect_attempts]⟩
  rw [if_neg hd]
  simp only
  by_cases hr : (c.mysql_real_connect (c.mysql_init w).2 (c.mysql_init w).1
      (slave_args a)).1 = false
  · rw [if_pos hr]
    obtain ⟨h1, h2⟩ := abstract_writer_handles c a
      (c.mysql_close (c.mysql_real_connect (c.mysql_init w).2 (c.mysql_init w).1
        (slave_args a)).2 (c.mysql_init w).1)
    constructor
    · unfold handles_ok at h1 ⊢
      simp only
      rw [handle_run_append, handle_run_failed_attempt]
      exact h1
    · simp only [List.cons_append, List.nil_append, connect_attempts]
      exact h2.cons₂ _
  · rw [if_neg hr]
    exact ⟨handle_run_good_attempt _ _, by simp [connect_attempts]⟩

/-! ## What a line does -/

theorem process_line_effect (l : List Nat) (st : LoadState) :
    process_line l st =
      match line_effect l with
      | none => none
      | some e => apply_assignment e st := by
  unfold process_line line_effect
  simp only
  split_ifs
  · cases (strsep 61 ((l.dropWhile is_blank).rdropWhile is_trailing)).2 with
    | none => rfl
    | some value =>
      simp only
      rw [assign_key_classify]
      cases classify (strsep 61 ((l.dropWhile is_blank).rdropWhile is_trailing)).1 <;> rfl
  · rfl
  · rfl

theorem load_lines_cons (l : List Nat) (ls : List (List Nat)) (st : LoadState) :
    load_lines (l :: ls) st = (process_line l st).bind (load_lines ls) := by
  simp only [load_lines]
  cases process_line l st <;> rfl

/-- Two assignments to different parameters, or of which one is none, can be
done in either order. -/
theorem apply_assignment_comm (e1 e2 : Option (config_key × List Nat)) (st : LoadState)
    (h : ∀ k1 v1 k2 v2, e1 = some (k1, v1) → e2 = some (k2, v2) → k1 ≠ k2) :
    (apply_assignment e1 st).bind (apply_assignment e2) =
      (apply_assignment e2 st).bind (apply_assignment e1) := by
  cases e1 with
  | none =>
    show apply_assignment e2 st = (apply_assignment e2 st).bind (apply_assignment none)
    cases apply_assignment e2 st <;> rfl
  | some p1 =>
    cases e2 with
    | none =>
      show (apply_assignment (some p1) st).bind (apply_assignment none) =
        apply_assignment (some p1) st
      cases apply_assignment (some p1) st <;> rfl
    | some p2 =>
      obtain ⟨k1, v1⟩ := p1
      obtain ⟨k2, v2⟩ := p2
      have hne : k1 ≠ k2 := h k1 v1 k2 v2 rfl rfl
      simp only [apply_assignment]
      by_cases h1 : is_set k1 st.2 = true
      · by_cases h2 : is_set k2 st.2 = true
        · simp [h1, h2]
        · simp [h1, h2, is_set_store_value_of_ne k2 k1 v2 st.2 hne]
      · by_cases h2 : is_set k2 st.2 = true
        · simp [h1, h2, is_set_store_value_of_ne k1 k2 v1 st.2 (Ne.symm hne)]
        · simp only [h1, h2, Bool.false_eq_true, if_false, Option.bind,
            is_set_store_value_of_ne k1 k2 v1 st.2 (Ne.symm hne),
            is_set_store_value_of_ne k2 k1 v2 st.2 hne,
            store_value_comm k1 k2 v1 v2 st.2 hne]

/-- Two lines that do not assign the same parameter can be processed in either
order. -/
theorem process_line_comm (x y : List Nat) (st : LoadState)
    (h : ∀ k, assigned_key x = some k → assigned_key y ≠ some k) :
    (process_line x st).bind (process_line y) = (process_line y st).bind (process_line x) := by
  have hx := process_line_effect x
  have hy := process_line_effect y
  cases ex : line_effect x with
  | none =>
    have hx1 : ∀ st1, process_line x st1 = none := fun st1 => by rw [hx, ex]
    rw [hx1 st]
    cases process_line y st with
    | none => rfl
    | some st1 => exact (hx1 st1).symm
  | some e1 =>
    have hx1 : ∀ st1, process_line x st1 = apply_assignment e1 st1 :=
      fun st1 => by rw [hx, ex]
    cases ey : line_effect y with
    | none =>
      have hy1 : ∀ st1, process_line y st1 = none := fun st1 => by rw [hy, ey]
      rw [hy1 st]
      cases process_line x st with
      | none => rfl
      | some st1 => exact hy1 st1
    | some e2 =>
      have hy1 : ∀ st1, process_line y st1 = apply_assignment e2 st1 :=
        fun st1 => by rw [hy, ey]
      have hfx : process_line x = apply_assignment e1 := funext hx1
      have hfy : process_line y = apply_assignment e2 := funext hy1
      rw [hfx, hfy]
      apply apply_assignment_comm
      intro k1 v1 k2 v2 h1 h2 hk
      subst h1 h2 hk
      exact h k1 (by simp [assigned_key, ex]) (by simp [assigned_key, ey])

theorem load_lines_swap (x y : List Nat) (ls : List (List Nat)) (st : LoadState)
    (h : ∀ k, assigned_key x = some k → assigned_key y ≠ some k) :
    load_lines (x :: y :: ls) st = load_lines (y :: x :: ls) st := by
  rw [load_lines_cons, load_lines_cons]
  have h1 : (fun st1 => load_lines (y :: ls) st1) =
      fun st1 => (process_line y st1).bind (load_lines ls) := funext (load_lines_cons y ls)
  have h2 : (fun st1 => load_lines (x :: ls) st1) =
      fun st1 => (process_line x st1).bind (load_lines ls) := funext (load_lines_cons x ls)
  show (process_line x st).bind (fun st1 => load_lines (y :: ls) st1) =
    (process_line y st).bind (fun st1 => load_lines (x :: ls) st1)
  rw [h1, h2, ← Option.bind_assoc, ← Option.bind_assoc, process_line_comm x y st h]

/-! ## The order of the lines -/

/-- Lines among which no parameter is assigned twice are processed with the same
outcome in any order. -/
theorem load_lines_perm (lines1 lines2 : List (List Nat)) (h : lines1.Perm lines2) :
    (lines1.filterMap assigned_key).Nodup → ∀ st, load_lines lines1 st = load_lines lines2 st := by
  induction h with
  | nil => intro _ st; rfl
  | @cons x l1 l2 _ ih =>
    intro hnd st
    have hnd1 : (l1.filterMap assigned_key).Nodup := by
      cases hx : assigned_key x with
      | none => simpa [List.filterMap_cons, hx] using hnd
      | some k =>
        have : (k :: l1.filterMap assigned_key).Nodup := by
          simpa [List.filterMap_cons, hx] using hnd
        exact (List.nodup_cons.mp this).2
    rw [load_lines_cons, load_lines_cons]
    cases process_line x st with
    | none => rfl
    | some st1 => exact ih hnd1 st1
  | swap x y l =>
    intro hnd st
    apply load_lines_swap
    intro k hy hx
    simp only [List.filterMap_cons, hy, hx] at hnd
    have := (List.nodup_cons.mp hnd).1
    simp at this
  | @trans l1 l2 l3 h12 _ ih1 ih2 =>
    intro hnd st
    have hnd2 : (l2.filterMap assigned_key).Nodup :=
      (h12.filterMap assigned_key).nodup_iff.mp hnd
    rw [ih1 hnd st, ih2 hnd2 st]

theorem config_text_length (lines : List (List Nat)) (final_newline : Bool) :
    (config_text lines final_newline).length =
      (lines.map List.length).sum + (lines.length - 1) +
        (if lines ≠ [] ∧ final_newline = true then 1 else 0) := by
  induction lines with
  | nil => simp [config_text]
  | cons l ls ih =>
    cases ls with
    | nil => cases final_newline <;> simp [config_text]
    | cons l1 ls1 =>
      simp only [config_text, List.length_append, List.length_cons, ih, List.map_cons,
        List.sum_cons, ne_eq, reduceCtorEq, not_false_eq_true, true_and]
      omega

theorem config_text_length_perm (lines1 lines2 : List (List Nat)) (final_newline : Bool)
    (h : lines1.Perm lines2) :
    (config_text lines1 final_newline).length = (config_text lines2 final_newline).length := by
  have h1 : (lines1.map List.length).sum = (lines2.map List.length).sum :=
    (h.map List.length).sum_eq
  have h2 : lines1.length = lines2.length := h.length_eq
  have h3 : lines1 ≠ [] ↔ lines2 ≠ [] := by
    rw [ne_eq, ne_eq, ← List.length_eq_zero, ← List.length_eq_zero, h2]
  rw [config_text_length, config_text_length, h1, h2]
  simp only [h3]

/-- C20: a file (a text, without NUL) in which no parameter is assigned on more
than one line, and the file with the same lines in another order:
`abstract_loadfile` ends the same way on both, with the same returned count and
the same structure, or with a failed assertion on both. -/
theorem C20_line_order (a : abstract_t) (lines1 lines2 : List (List Nat))
    (final_newline : Bool) (hperm : lines1.Perm lines2)
    (hnl : ∀ l ∈ lines1, 10 ∉ l) (h0 : ∀ l ∈ lines1, 0 ∉ l)
    (hkeys : (lines1.filterMap assigned_key).Nodup) :
    abstract_loadfile a (some (config_text lines1 final_newline)) =
      abstract_loadfile a (some (config_text lines2 final_newline)) := by
  have hnl2 : ∀ l ∈ lines2, 10 ∉ l := fun l hl => hnl l (hperm.mem_iff.mpr hl)
  have h02 : ∀ l ∈ lines2, 0 ∉ l := fun l hl => h0 l (hperm.mem_iff.mpr hl)
  have hlen := config_text_length_perm lines1 lines2 final_newline hperm
  cases hf : a.filecontent with
  | true => simp [abstract_loadfile, hf]
  | false =>
    by_cases h1 : config_text lines1 final_newline = []
    · have h2 : config_text lines2 final_newline = [] := by
        apply List.eq_nil_of_length_eq_zero
        rw [← hlen, h1]
        rfl
      rw [h1, h2]
    · have h2 : config_text lines2 final_newline ≠ [] := by
        intro h
        apply h1
        apply List.eq_nil_of_length_eq_zero
        rw [hlen, h]
        rfl
      rw [abstract_loadfile_lines a _ _ hf hnl h0 h1,
        abstract_loadfile_lines a _ _ hf hnl2 h02 h2]
      exact load_lines_perm lines1 lines2 hperm hkeys _

/-- C20 at an example: five lines, three of them assignments, in two orders. -/
theorem C20_line_order_witness :
    [str "master_host=db1", str "# the port", str "master_port=0", str "",
      str "Slave_User=reader"].Perm
      [str "Slave_User=reader", str "master_port=0", str "", str "master_host=db1",
        str "# the port"] ∧
    ([str "master_host=db1", str "# the port", str "master_port=0", str "",
      str "Slave_User=reader"].filterMap assigned_key).Nodup ∧
    abstract_loadfile (abstract_init none)
        (some (config_text
          [str "master_host=db1", str "# the port", str "master_port=0", str "",
            str "Slave_User=reader"] true)) =
      abstract_loadfile (abstract_init none)
        (some (config_text
          [str "Slave_User=reader", str "master_port=0", str "", str "master_host=db1",
            str "# the port"] true)) :=
  ⟨by decide, by decide,
    C20_line_order (abstract_init none) _ _ true (by decide) (by decide) (by decide)
      (by decide)⟩

/-! ## Lines with an unknown key -/

theorem classify_unknown (key : List Nat) (h : ∀ k : config_key, strcasecmp key k.name ≠ 0) :
    classify key = none := by
  have h1 : strcasecmp key (str "master_host") ≠ 0 := h .master_host
  have h2 : strcasecmp key (str "master_user") ≠ 0 := h .master_user
  have h3 : strcasecmp key (str "master_pass") ≠ 0 := h .master_pass
  have h4 : strcasecmp key (str "master_db") ≠ 0 := h .master_db
  have h5 : strcasecmp key (str "master_port") ≠ 0 := h .master_port
  have h6 : strcasecmp key (str "slave_host") ≠ 0 := h .slave_host
  have h7 : strcasecmp key (str "slave_user") ≠ 0 := h .slave_user
  have h8 : strcasecmp key (str "slave_pass") ≠ 0 := h .slave_pass
  have h9 : strcasecmp key (str "slave_db") ≠ 0 := h .slave_db
  have h10 : strcasecmp key (str "slave_port") ≠ 0 := h .slave_port
  unfold classify
  rw [if_neg h1, if_neg h2, if_neg h3, if_neg h4, if_neg h5, if_neg h6, if_neg h7, if_neg h8,
    if_neg h9, if_neg h10]

/-- A line `key=value` whose key, without its leading blanks, is none of the ten
names changes nothing. -/
theorem process_line_unknown (key value : List Nat) (st : LoadState)
    (he : 61 ∉ key) (h0 : 0 ∉ key)
    (hk : ∀ k : config_key, strcasecmp (key.dropWhile is_blank) k.name ≠ 0) :
    process_line (key ++ 61 :: value) st = some st := by
  rw [process_line_with_equals key value st he h0]
  split_ifs
  · rw [assign_key_classify, classify_unknown _ hk]
  · rfl

theorem c_lines_append_nul (xs ys : List (List Nat)) (h : ∃ l ∈ xs, 0 ∈ l) :
    c_lines (xs ++ ys) = c_lines xs := by
  induction xs with
  | nil => obtain ⟨l, hl, _⟩ := h; cases hl
  | cons x xs ih =>
    by_cases hx : 0 ∈ x
    · simp only [List.cons_append, c_lines, hx, if_true]
    · have h1 : ∃ l ∈ xs, 0 ∈ l := by
        obtain ⟨l, hl, hl0⟩ := h
        rcases List.mem_cons.mp hl with rfl | hl1
        · exact absurd hl0 hx
        · exact ⟨l, hl1, hl0⟩
      have e1 : c_lines (x :: (xs ++ ys)) = x :: c_lines (xs ++ ys) := by
        simp only [c_lines, hx, if_false]
      have e2 : c_lines (x :: xs) = x :: c_lines xs := by
        simp only [c_lines, hx, if_false]
      rw [List.cons_append, e1, e2, ih h1]

/-- C12: a file on which `abstract_loadfile` succeeds, and a line `K=V` (no NUL,
no line feed, no `=` in `K`) whose key, without its leading blanks, is not
equal to any of the ten names for `strcasecmp`: with the line inserted at any
place the load succeeds with the same count and the same structure. -/
theorem C12_unknown_key_ignored (a : abstract_t) (before after : List (List Nat))
    (key value : List Nat) (final_newline : Bool) (r : LoadState)
    (hnl : ∀ l ∈ before ++ after, 10 ∉ l)
    (hline : 10 ∉ key ++ 61 :: value ∧ 0 ∉ key ++ 61 :: value)
    (he : 61 ∉ key)
    (hk : ∀ k : config_key, strcasecmp (key.dropWhile is_blank) k.name ≠ 0)
    (hload : abstract_loadfile a (some (config_text (before ++ after) final_newline)) =
      some r) :
    abstract_loadfile a
        (some (config_text (before ++ (key ++ 61 :: value) :: after) final_newline)) =
      some r := by
  have hf : a.filecontent = false := by
    cases hfc : a.filecontent with
    | false => rfl
    | true => simp [abstract_loadfile, hfc] at hload
  have hrest : config_text (before ++ after) final_newline ≠ [] := by
    intro h
    rw [h] at hload
    simp [abstract_loadfile, hf] at hload
  have hfull : config_text (before ++ (key ++ 61 :: value) :: after) final_newline ≠ [] :=
    fun h => by
      have := config_text_eq_nil _ _ h (key ++ 61 :: value) (by simp)
      simp at this
  have hnl2 : ∀ l ∈ before ++ (key ++ 61 :: value) :: after, 10 ∉ l := by
    intro l hl
    simp only [List.mem_append, List.mem_cons] at hl
    rcases hl with hl | rfl | hl
    · exact hnl l (by simp [hl])
    · exact hline.1
    · exact hnl l (by simp [hl])
  have h0k : 0 ∉ key := fun h => hline.2 (by simp [h])
  rw [abstract_loadfile_text a _ _ hf hnl hrest] at hload
  rw [abstract_loadfile_text a _ _ hf hnl2 hfull, ← hload]
  by_cases hb : ∃ l ∈ before, 0 ∈ l
  · rw [c_lines_append_nul _ _ hb, c_lines_append_nul _ _ hb]
  · have hb1 : ∀ l ∈ before, 0 ∉ l := fun l hl h => hb ⟨l, hl, h⟩
    have hcl : c_lines ((key ++ 61 :: value) :: after) = (key ++ 61 :: value) :: c_lines after := by
      simp only [c_lines, hline.2, if_false]
    rw [c_lines_append _ _ hb1, c_lines_append _ _ hb1, hcl, load_lines_append,
      load_lines_append]
    congr 1
    funext st
    rw [load_lines_cons, process_line_unknown key value st he h0k hk]
    rfl

/-- C12 at an example: the line `timeout = 30` between two assignments. -/
theorem C12_unknown_key_ignored_witness :
    (∀ k : config_key, strcasecmp ((str "timeout ").dropWhile is_blank) k.name ≠ 0) ∧
    abstract_loadfile (abstract_init none)
        (some (config_text ([str "master_host=db1"] ++ [str "master_user=root"]) true)) =
      some (2, half_store) ∧
    abstract_loadfile (abstract_init none)
        (some (config_text
          ([str "master_host=db1"] ++ (str "timeout " ++ 61 :: str " 30") ::
            [str "master_user=root"]) true)) =
      some (2, half_store) :=
  ⟨fun k => by cases k <;> decide, by decide,
    C12_unknown_key_ignored (abstract_init none) [str "master_host=db1"]
      [str "master_user=root"] (str "timeout ") (str " 30") true (2, half_store)
      (by decide) (by decide) (by decide) (fun k => by cases k <;> decide) (by decide)⟩

/-! ## White space around a line -/

theorem dropWhile_append_of_all (p : Nat → Bool) (l r : List Nat) (h : ∀ c ∈ l, p c = true) :
    (l ++ r).dropWhile p = r.dropWhile p := by
  induction l with
  | nil => rfl
  | cons x xs ih =>
    have hx : p x = true := h x (List.mem_cons_self _ _)
    simp only [List.cons_append, List.dropWhile_cons, hx, if_true]
    exact ih (fun c hc => h c (List.mem_cons_of_mem _ hc))

theorem dropWhile_append_of_exists (p : Nat → Bool) (l r : List Nat)
    (h : ∃ c ∈ l, p c = false) : (l ++ r).dropWhile p = l.dropWhile p ++ r := by
  induction l with
  | nil => obtain ⟨c, hc, _⟩ := h; cases hc
  | cons x xs ih =>
    cases hx : p x
    · simp [List.dropWhile, hx]
    · have h1 : ∃ c ∈ xs, p c = false := by
        obtain ⟨c, hc, hpc⟩ := h
        rcases List.mem_cons.mp hc with rfl | hc1
        · rw [hx] at hpc; cases hpc
        · exact ⟨c, hc1, hpc⟩
      simp only [List.cons_append, List.dropWhile_cons, hx, if_true]
      exact ih h1

theorem rdropWhile_append_of_all (p : Nat → Bool) (l w : List Nat) (h : ∀ c ∈ w, p c = true) :
    (l ++ w).rdropWhile p = l.rdropWhile p := by
  simp only [List.rdropWhile, List.reverse_append]
  rw [dropWhile_append_of_all p _ _ (fun c hc => h c (List.mem_reverse.mp hc))]

theorem dropWhile_ne_nil_of_exists (p : Nat → Bool) (l : List Nat) (h : ∃ c ∈ l, p c = false) :
    l.dropWhile p ≠ [] := by
  intro hnil
  obtain ⟨c, hc, hpc⟩ := h
  have := List.dropWhile_eq_nil_iff.mp hnil c hc
  rw [hpc] at this
  cases this

/-- Blanks before a line and stripped characters after it do not change what
the loop body does with it. -/
theorem process_line_padded (l1 l2 : List Nat) (st : LoadState) (h : padded l1 l2) :
    process_line l2 st = process_line l1 st := by
  obtain ⟨p, w, hp, hw, rfl⟩ := h
  have hpb : ∀ c ∈ p, is_blank c = true := by
    intro c hc
    rcases hp c hc with rfl | rfl <;> rfl
  have hwt : ∀ c ∈ w, is_trailing c = true := by
    intro c hc
    rcases hw c hc with rfl | rfl | rfl <;> rfl
  by_cases hl : ∃ c ∈ l1, is_blank c = false
  · have hd : (p ++ l1 ++ w).dropWhile is_blank = l1.dropWhile is_blank ++ w := by
      rw [List.append_assoc, dropWhile_append_of_all is_blank p _ hpb,
        dropWhile_append_of_exists is_blank l1 w hl]
    have hne := dropWhile_ne_nil_of_exists is_blank l1 hl
    have hhead : (l1.dropWhile is_blank ++ w).headD 0 = (l1.dropWhile is_blank).headD 0 := by
      cases hs : l1.dropWhile is_blank with
      | nil => exact absurd hs hne
      | cons x xs => rfl
    unfold process_line
    simp only [hd, hhead, rdropWhile_append_of_all is_trailing _ w hwt]
  · have hall : ∀ c ∈ l1, c = 32 ∨ c = 9 := by
      intro c hc
      have : is_blank c = true := by
        by_contra hcb
        exact hl ⟨c, hc, by simpa using hcb⟩
      simpa [is_blank] using this
    have hb1 : blank_line l1 := fun c hc => by
      rcases hall c hc with h1 | h1
      · exact Or.inl h1
      · exact Or.inr (Or.inl h1)
    have hb2 : blank_line (p ++ l1 ++ w) := by
      intro c hc
      simp only [List.mem_append] at hc
      rcases hc with (hc | hc) | hc
      · rcases hp c hc with h1 | h1
        · exact Or.inl h1
        · exact Or.inr (Or.inl h1)
      · exact hb1 c hc
      · exact hw c hc
    rw [process_line_skipped _ st (Or.inl hb1), process_line_skipped _ st (Or.inl hb2)]

theorem load_lines_padded (lines1 lines2 : List (List Nat)) (h : List.Forall₂ padded lines1 lines2) :
    ∀ st, load_lines lines2 st = load_lines lines1 st := by
  induction h with
  | nil => intro st; rfl
  | cons hl _ ih =>
    intro st
    rw [load_lines_cons, load_lines_cons, process_line_padded _ _ st hl]
    cases process_line _ st with
    | none => rfl
    | some st1 => exact ih st1

theorem padded_mem_iff (l1 l2 : List Nat) (c : Nat) (h : padded l1 l2)
    (hc : c ≠ 32 ∧ c ≠ 9 ∧ c ≠ 13) : c ∈ l2 ↔ c ∈ l1 := by
  obtain ⟨p, w, hp, hw, rfl⟩ := h
  simp only [List.mem_append]
  constructor
  · rintro ((h1 | h1) | h1)
    · rcases hp c h1 with h2 | h2
      · exact absurd h2 hc.1
      · exact absurd h2 hc.2.1
    · exact h1
    · rcases hw c h1 with h2 | h2 | h2
      · exact absurd h2 hc.1
      · exact absurd h2 hc.2.1
      · exact absurd h2 hc.2.2
  · intro h1; exact Or.inl (Or.inr h1)

theorem padded_cstr (l1 l2 : List Nat) (h : padded l1 l2) (h0 : 0 ∈ l1) :
    padded (cstr l1) (cstr l2) := by
  obtain ⟨p, w, hp, hw, rfl⟩ := h
  have hp0 : 0 ∉ p := by
    intro h1
    rcases hp 0 h1 with h2 | h2 <;> cases h2
  refine ⟨p, [], ⟨hp, ⟨fun c hc => absurd hc (List.not_mem_nil c), ?_⟩⟩⟩
  rw [List.append_assoc, cstr_append, if_neg hp0, cstr_append, if_pos h0, List.append_nil]

theorem c_lines_padded (lines1 lines2 : List (List Nat)) (h : List.Forall₂ padded lines1 lines2) :
    List.Forall₂ padded (c_lines lines1) (c_lines lines2) := by
  induction h with
  | nil => exact .nil
  | @cons l1 l2 ls1 ls2 hl _ ih =>
    have h0 : 0 ∈ l2 ↔ 0 ∈ l1 := padded_mem_iff l1 l2 0 hl (by decide)
    unfold c_lines
    by_cases hl0 : 0 ∈ l1
    · rw [if_pos hl0, if_pos (h0.mpr hl0)]
      exact .cons (padded_cstr l1 l2 hl hl0) .nil
    · rw [if_neg hl0, if_neg (fun h => hl0 (h0.mp h))]
      exact .cons hl ih

theorem padded_nil (l1 : List Nat) (h : padded l1 []) : l1 = [] := by
  obtain ⟨p, w, _, _, h⟩ := h
  have := congrArg List.length h
  simp only [List.length_nil, List.length_append] at this
  exact List.eq_nil_of_length_eq_zero (by omega)

theorem config_text_padded_ne_nil (lines1 lines2 : List (List Nat)) (final_newline : Bool)
    (h : List.Forall₂ padded lines1 lines2) (hne : config_text lines1 final_newline ≠ []) :
    config_text lines2 final_newline ≠ [] := by
  intro h2
  apply hne
  have hall := config_text_eq_nil lines2 final_newline h2
  have heq : lines1 = lines2 := by
    clear hne h2
    induction h with
    | nil => rfl
    | @cons l1 l2 ls1 ls2 hl _ ih =>
      have hl2 : l2 = [] := hall l2 (List.mem_cons_self _ _)
      subst hl2
      rw [padded_nil l1 hl, ih (fun l hl1 => hall l (List.mem_cons_of_mem _ hl1))]
  rw [heq]
  exact h2

/-- C16: a non-empty file, and the file in which any lines have spaces and tabs
put before them and spaces, tabs and carriage returns put after them:
`abstract_loadfile` ends the same way on both, with the same returned count and
the same structure, or with a failed assertion on both. -/
theorem C16_surrounding_whitespace (a : abstract_t) (lines1 lines2 : List (List Nat))
    (final_newline : Bool) (hv : List.Forall₂ padded lines1 lines2)
    (hnl : ∀ l ∈ lines1, 10 ∉ l) (hne : config_text lines1 final_newline ≠ []) :
    abstract_loadfile a (some (config_text lines2 final_newline)) =
      abstract_loadfile a (some (config_text lines1 final_newline)) := by
  have hnl2 : ∀ l ∈ lines2, 10 ∉ l :=
    forall₂_transfer (R := padded) (P := fun l => 10 ∉ l) (Q := fun l => 10 ∉ l)
      (fun x y hxy hx hy => hx ((padded_mem_iff x y 10 hxy (by decide)).mp hy))
      lines1 lines2 hv hnl
  have hne2 := config_text_padded_ne_nil lines1 lines2 final_newline hv hne
  cases hf : a.filecontent with
  | true => simp [abstract_loadfile, hf]
  | false =>
    rw [abstract_loadfile_text a _ _ hf hnl hne, abstract_loadfile_text a _ _ hf hnl2 hne2]
    exact load_lines_padded _ _ (c_lines_padded lines1 lines2 hv) _

/-- C16 at an example: a file with LF line ends against the same file indented
and with CRLF line ends. -/
theorem C16_surrounding_whitespace_witness :
    List.Forall₂ padded
      [str "master_host=db1", str "# port", str "", str "master_port=3307"]
      [str "  master_host=db1\r", str "\t# port \r", str "\r", str "master_port=3307 \t\r"] ∧
    abstract_loadfile (abstract_init none)
        (some (config_text
          [str "  master_host=db1\r", str "\t# port \r", str "\r", str "master_port=3307 \t\r"]
          true)) =
      abstract_loadfile (abstract_init none)
        (some (config_text
          [str "master_host=db1", str "# port", str "", str "master_port=3307"] true)) :=
  have hv : List.Forall₂ padded
      [str "master_host=db1", str "# port", str "", str "master_port=3307"]
      [str "  master_host=db1\r", str "\t# port \r", str "\r", str "master_port=3307 \t\r"] :=
    .cons ⟨str "  ", str "\r", by decide, by decide, by decide⟩
      (.cons ⟨str "\t", str " \r", by decide, by decide, by decide⟩
        (.cons ⟨[], str "\r", by decide, by decide, by decide⟩
          (.cons ⟨[], str " \t\r", by decide, by decide, by decide⟩ .nil)))
  ⟨hv, C16_surrounding_whitespace (abstract_init none) _ _ true hv (by decide) (by decide)⟩

/-! ## A file with one assignment to a parameter -/

theorem line_effect_with_equals (key value : List Nat) (he : 61 ∉ key) (h0 : 0 ∉ key) :
    line_effect (key ++ 61 :: value) =
      if (key.dropWhile is_blank).headD 61 ≠ 35 ∧ (key.dropWhile is_blank).headD 61 ≠ 59 then
        some ((classify (key.dropWhile is_blank)).map
          (fun k => (k, value.rdropWhile is_trailing)))
      else some none := by
  have hsub : ∀ x ∈ key.dropWhile is_blank, x ∈ key :=
    fun x hx => (List.dropWhile_suffix _).subset hx
  have hhead : (key.dropWhile is_blank ++ 61 :: value).headD 0 =
      (key.dropWhile is_blank).headD 61 := by
    cases key.dropWhile is_blank <;> rfl
  have hlen : (key.dropWhile is_blank ++ 61 :: value.rdropWhile is_trailing).length > 0 := by
    simp
  simp only [line_effect, dropWhile_append_cons is_blank key value 61 (by decide), hhead,
    rdropWhile_append_cons is_trailing _ value 61 (by decide), hlen, if_true,
    strsep_append 61 _ _ (fun h => he (hsub _ h)) (fun h => h0 (hsub _ h)) (by decide)]

theorem rdropWhile_of_not_trailing (v : List Nat) (hv : ends_in_trailing v = false) :
    v.rdropWhile is_trailing = v := by
  rw [List.rdropWhile_eq_self_iff]
  intro hl
  have hlast : v.getLast? = some (v.getLast hl) := List.getLast?_eq_getLast _ _
  unfold ends_in_trailing at hv
  rw [hlast] at hv
  simp only at hv
  rw [hv]
  decide

theorem line_effect_assignment_line (k : config_key) (v : List Nat)
    (hv : ends_in_trailing v = false) :
    line_effect (assignment_line k v) = some (some (k, v)) := by
  have hd : k.name.dropWhile is_blank = k.name := by cases k <;> decide
  have hc : k.name.headD 61 ≠ 35 ∧ k.name.headD 61 ≠ 59 := by cases k <;> decide
  unfold assignment_line
  rw [line_effect_with_equals _ _ (name_no_equals k) (name_no_nul k), hd, if_pos hc,
    classify_name, rdropWhile_of_not_trailing v hv]
  rfl

/-- A line that assigns a parameter can be moved behind lines that do not assign
it. -/
theorem load_lines_assignment_last (k : config_key) (v line : List Nat)
    (heff : line_effect line = some (some (k, v))) (after : List (List Nat))
    (hother : ∀ l ∈ after, assigned_key l ≠ some k) :
    ∀ st, load_lines (line :: after) st =
      (load_lines after st).bind (apply_assignment (some (k, v))) := by
  have hline : ∀ st, process_line line st = apply_assignment (some (k, v)) st :=
    fun st => by rw [process_line_effect, heff]
  have hkey : assigned_key line = some k := by simp [assigned_key, heff]
  induction after with
  | nil =>
    intro st
    rw [load_lines_cons, hline]
    show (apply_assignment (some (k, v)) st).bind (load_lines []) =
      apply_assignment (some (k, v)) st
    cases apply_assignment (some (k, v)) st <;> rfl
  | cons y ys ih =>
    intro st
    rw [load_lines_swap line y ys st (fun k1 h1 => by
      rw [hkey] at h1
      cases h1
      exact hother y (List.mem_cons_self _ _)),
      load_lines_cons, load_lines_cons y ys, Option.bind_assoc]
    congr 1
    funext st1
    exact ih (fun l hl => hother l (List.mem_cons_of_mem _ hl)) st1

/-- Lines that do not assign a parameter leave its member as it is. -/
theorem load_lines_is_set (k : config_key) (lines : List (List Nat))
    (hother : ∀ l ∈ lines, assigned_key l ≠ some k) :
    ∀ st st1, load_lines lines st = some st1 → is_set k st1.2 = is_set k st.2 := by
  induction lines with
  | nil =>
    intro st st1 h
    cases h
    rfl
  | cons l ls ih =>
    intro st st1 h
    rw [load_lines_cons] at h
    cases hp : process_line l st with
    | none => rw [hp] at h; cases h
    | some st2 =>
      rw [hp] at h
      have h2 := ih (fun x hx => hother x (List.mem_cons_of_mem _ hx)) st2 st1 h
      rw [h2]
      rw [process_line_effect] at hp
      cases he : line_effect l with
      | none => rw [he] at hp; cases hp
      | some e =>
        rw [he] at hp
        cases e with
        | none => cases hp; rfl
        | some q =>
          obtain ⟨k1, v1⟩ := q
          have hne : k ≠ k1 := fun hk => hother l (List.mem_cons_self _ _) (by
            simp [assigned_key, he, hk])
          simp only [apply_assignment] at hp
          split_ifs at hp
          cases hp
          exact is_set_store_value_of_ne k1 k v1 st.2 hne

/-- A file with a line that assigns a parameter, which no other line assigns
and which is not set before: the load is the load of the other lines followed
by the assignment. -/
theorem load_lines_insert (k : config_key) (v line : List Nat) (before after : List (List Nat))
    (st : LoadState) (heff : line_effect line = some (some (k, v)))
    (hother : ∀ l ∈ before ++ after, assigned_key l ≠ some k)
    (hunset : is_set k st.2 = false) :
    load_lines (before ++ line :: after) st =
      (load_lines (before ++ after) st).bind
        (fun st1 => some (st1.1 + 1, store_value k v st1.2)) := by
  have h1 : load_lines (before ++ line :: after) st =
      (load_lines (before ++ after) st).bind (apply_assignment (some (k, v))) := by
    rw [load_lines_append, load_lines_append, Option.bind_assoc]
    congr 1
    funext st1
    exact load_lines_assignment_last k v line heff after
      (fun l hl => hother l (List.mem_append_right _ hl)) st1
  rw [h1]
  cases hr : load_lines (before ++ after) st with
  | none => rfl
  | some st1 =>
    have := load_lines_is_set k _ hother st st1 hr
    simp only [Option.bind, apply_assignment, this, hunset, Bool.false_eq_true, if_false]

theorem is_set_init (o : Option abstract_t) (k : config_key) :
    is_set k { abstract_init o with filecontent := true } = false := by
  cases o <;> cases k <;> rfl

theorem line_effect_ne_nil (line : List Nat) (e : config_key × List Nat)
    (h : line_effect line = some (some e)) : line ≠ [] := by
  rintro rfl
  simp [line_effect, List.rdropWhile] at h

/-- The load of a file (a text without NUL) with a line that assigns a
parameter no other line assigns, on an initialised structure: the load of
the other lines, then the assignment. -/
theorem abstract_loadfile_insert (o : Option abstract_t) (k : config_key) (v line : List Nat)
    (before after : List (List Nat)) (final_newline : Bool)
    (heff : line_effect line = some (some (k, v)))
    (hnl : ∀ l ∈ before ++ line :: after, 10 ∉ l)
    (h0 : ∀ l ∈ before ++ line :: after, 0 ∉ l)
    (hother : ∀ l ∈ before ++ after, assigned_key l ≠ some k) :
    abstract_loadfile (abstract_init o)
        (some (config_text (before ++ line :: after) final_newline)) =
      (load_lines (before ++ after) (0, { abstract_init o with filecontent := true })).bind
        (fun st1 => some (st1.1 + 1, store_value k v st1.2)) := by
  have hfresh : (abstract_init o).filecontent = false := by cases o <;> rfl
  have hne : config_text (before ++ line :: after) final_newline ≠ [] := fun h =>
    line_effect_ne_nil line _ heff (config_text_eq_nil _ _ h line (by simp))
  rw [abstract_loadfile_lines _ _ _ hfresh hnl h0 hne]
  exact load_lines_insert k v line before after _ heff hother (is_set_init o k)

/-- The load of the other lines, when it succeeds as a load of a file. -/
theorem abstract_loadfile_rest (o : Option abstract_t) (lines : List (List Nat))
    (final_newline : Bool) (r : LoadState)
    (hnl : ∀ l ∈ lines, 10 ∉ l) (h0 : ∀ l ∈ lines, 0 ∉ l)
    (h : abstract_loadfile (abstract_init o) (some (config_text lines final_newline)) = some r) :
    load_lines lines (0, { abstract_init o with filecontent := true }) = some r := by
  have hfresh : (abstract_init o).filecontent = false := by cases o <;> rfl
  have hne : config_text lines final_newline ≠ [] := by
    intro hnil
    rw [hnil] at h
    simp [abstract_loadfile, hfresh] at h
  rw [← abstract_loadfile_lines _ _ _ hfresh hnl h0 hne]
  exact h

theorem assignment_line_clean (k : config_key) (v : List Nat) (before after : List (List Nat))
    (hv : well_formed_value v)
    (hnl : ∀ l ∈ before ++ after, 10 ∉ l) (h0 : ∀ l ∈ before ++ after, 0 ∉ l) :
    (∀ l ∈ before ++ assignment_line k v :: after, 10 ∉ l) ∧
      (∀ l ∈ before ++ assignment_line k v :: after, 0 ∉ l) := by
  constructor
  · intro l hl
    simp only [List.mem_append, List.mem_cons] at hl
    rcases hl with hl | rfl | hl
    · exact hnl l (by simp [hl])
    · simp [assignment_line, name_no_newline, hv.1]
    · exact hnl l (by simp [hl])
  · intro l hl
    simp only [List.mem_append, List.mem_cons] at hl
    rcases hl with hl | rfl | hl
    · exact h0 l (by simp [hl])
    · simp [assignment_line, name_no_nul, hv.2.1]
    · exact h0 l (by simp [hl])

theorem string_member_store_value (k : config_key) (v : List Nat) (a : abstract_t)
    (hk : k ≠ .master_port ∧ k ≠ .slave_port) :
    string_member k (store_value k v a) = some v := by
  cases k <;> first | rfl | exact absurd rfl hk.1 | exact absurd rfl hk.2

/-- C17: a file (a text without NUL) whose only assignment to one of the eight
string parameters is the line `name=V`, where `V` has no line feed and does not
end in a space, a tab or a carriage return, loaded into an initialised
structure: whenever the load succeeds the member is `V` byte for byte; the load
succeeds as soon as the file without the line loads, with one more in the
count and the other members unchanged; the line alone loads with count 1. -/
theorem C17_string_value_verbatim (o : Option abstract_t) (k : config_key) (value : List Nat)
    (before after : List (List Nat)) (final_newline : Bool)
    (hk : k ≠ .master_port ∧ k ≠ .slave_port)
    (hv : well_formed_value value)
    (hnl : ∀ l ∈ before ++ after, 10 ∉ l) (h0 : ∀ l ∈ before ++ after, 0 ∉ l)
    (hother : ∀ l ∈ before ++ after, assigned_key l ≠ some k) :
    (∀ r, abstract_loadfile (abstract_init o)
        (some (config_text (before ++ assignment_line k value :: after) final_newline)) =
        some r → string_member k r.2 = some value) ∧
    (∀ n s, abstract_loadfile (abstract_init o)
        (some (config_text (before ++ after) final_newline)) = some (n, s) →
      abstract_loadfile (abstract_init o)
        (some (config_text (before ++ assignment_line k value :: after) final_newline)) =
        some (n + 1, store_value k value s)) ∧
    abstract_loadfile (abstract_init o)
        (some (config_text [assignment_line k value] final_newline)) =
      some (1, store_value k value { abstract_init o with filecontent := true }) := by
  have heff := line_effect_assignment_line k value hv.2.2
  obtain ⟨hnl1, h01⟩ := assignment_line_clean k value before after hv hnl h0
  have hfull := abstract_loadfile_insert o k value _ before after final_newline heff hnl1 h01
    hother
  refine ⟨?_, ?_, ?_⟩
  · intro r hr
    rw [hfull] at hr
    cases hl : load_lines (before ++ after) (0, { abstract_init o with filecontent := true }) with
    | none => rw [hl] at hr; cases hr
    | some st1 =>
      rw [hl] at hr
      cases hr
      exact string_member_store_value k value _ hk
  · intro n s hrest
    rw [hfull, abstract_loadfile_rest o _ final_newline (n, s) hnl h0 hrest]
    rfl
  · obtain ⟨hnl2, h02⟩ := assignment_line_clean k value [] [] hv
      (fun l hl => by cases hl) (fun l hl => by cases hl)
    have := abstract_loadfile_insert o k value _ [] [] final_newline heff hnl2 h02
      (fun l hl => by cases hl)
    exact this

/-- C17 at an example: a password with a leading space, `=`, `#`, `;`, a quote
and a backslash, between two other assignments. -/
theorem C17_string_value_verbatim_witness :
    well_formed_value (str " p=ss#w;\"q\\") ∧
    (∀ l ∈ [str "master_host=db1"] ++ [str "# end", str "master_user=root"],
      assigned_key l ≠ some config_key.master_pass) ∧
    abstract_loadfile (abstract_init none)
        (some (config_text
          ([str "master_host=db1"] ++
            assignment_line .master_pass (str " p=ss#w;\"q\\") ::
              [str "# end", str "master_user=root"]) true)) =
      some (2 + 1, store_value .master_pass (str " p=ss#w;\"q\\") half_store) :=
  ⟨by decide, by decide,
    (C17_string_value_verbatim none .master_pass (str " p=ss#w;\"q\\")
      [str "master_host=db1"] [str "# end", str "master_user=root"] true
      (by decide) (by decide) (by decide) (by decide) (by decide)).2.1 2 half_store
      (by decide)⟩

/-! ## Ports -/

theorem strtol_no_number (v : List Nat) (h : starts_with_number v = false) : strtol v = 0 := by
  unfold starts_with_number at h
  unfold strtol
  simp only at h ⊢
  generalize (if (v.dropWhile isspace).head? = some 45 ∨ (v.dropWhile isspace).head? = some 43
    then (v.dropWhile isspace).tail else v.dropWhile isspace) = s at h ⊢
  have ht : s.takeWhile isdigit = [] := by
    cases s with
    | nil => rfl
    | cons c cs =>
      simp only [List.head?_cons] at h
      simp [List.takeWhile, h]
  rw [ht]
  simp [digits_value]

theorem to_unsigned_atoi_no_number (v : List Nat) (h : starts_with_number v = false) :
    to_unsigned (atoi v) = 0 := by
  unfold to_unsigned atoi
  rw [strtol_no_number v h]
  decide

theorem port_member_store_value (k : config_key) (v : List Nat) (a : abstract_t)
    (hk : k = .master_port ∨ k = .slave_port) :
    port_member k (store_value k v a) = to_unsigned (atoi v) := by
  rcases hk with rfl | rfl <;> rfl

/-- C11: a file (a text without NUL) whose only assignment to a port parameter
is the line `name=V`, loaded into an initialised structure, where `V` is the
decimal numeral of a number below `2 ^ 32`, or a value that does not start with
a number (and the number meant is 0): the port assigned is that number;
whenever the load succeeds the port member is that number; the load succeeds
as soon as the file without the line loads, with one more in the count; the
line alone loads with count 1. -/
theorem C11_port_parsing (o : Option abstract_t) (k : config_key) (value : List Nat)
    (port : Nat) (before after : List (List Nat)) (final_newline : Bool)
    (hk : k = .master_port ∨ k = .slave_port)
    (hv : (value = decimal port ∧ port < 2 ^ 32) ∨
      (well_formed_value value ∧ starts_with_number value = false ∧ port = 0))
    (hnl : ∀ l ∈ before ++ after, 10 ∉ l) (h0 : ∀ l ∈ before ++ after, 0 ∉ l)
    (hother : ∀ l ∈ before ++ after, assigned_key l ≠ some k) :
    (∀ a, port_member k (store_value k value a) = port) ∧
    (∀ r, abstract_loadfile (abstract_init o)
        (some (config_text (before ++ assignment_line k value :: after) final_newline)) =
        some r → port_member k r.2 = port) ∧
    (∀ n s, abstract_loadfile (abstract_init o)
        (some (config_text (before ++ after) final_newline)) = some (n, s) →
      abstract_loadfile (abstract_init o)
        (some (config_text (before ++ assignment_line k value :: after) final_newline)) =
        some (n + 1, store_value k value s)) ∧
    abstract_loadfile (abstract_init o)
        (some (config_text [assignment_line k value] final_newline)) =
      some (1, store_value k value { abstract_init o with filecontent := true }) := by
  have hwf : well_formed_value value := by
    rcases hv with ⟨rfl, _⟩ | ⟨h, _, _⟩
    · exact decimal_well_formed port
    · exact h
  have hport : ∀ a, port_member k (store_value k value a) = port := by
    intro a
    rw [port_member_store_value k value a hk]
    rcases hv with ⟨rfl, hp⟩ | ⟨_, hn, rfl⟩
    · exact to_unsigned_atoi_decimal port hp
    · exact to_unsigned_atoi_no_number value hn
  have heff := line_effect_assignment_line k value hwf.2.2
  obtain ⟨hnl1, h01⟩ := assignment_line_clean k value before after hwf hnl h0
  have hfull := abstract_loadfile_insert o k value _ before after final_newline heff hnl1 h01
    hother
  refine ⟨hport, ?_, ?_, ?_⟩
  · intro r hr
    rw [hfull] at hr
    cases hl : load_lines (before ++ after) (0, { abstract_init o with filecontent := true }) with
    | none => rw [hl] at hr; cases hr
    | some st1 =>
      rw [hl] at hr
      cases hr
      exact hport _
  · intro n s hrest
    rw [hfull, abstract_loadfile_rest o _ final_newline (n, s) hnl h0 hrest]
    rfl
  · obtain ⟨hnl2, h02⟩ := assignment_line_clean k value [] [] hwf
      (fun l hl => by cases hl) (fun l hl => by cases hl)
    have := abstract_loadfile_insert o k value _ [] [] final_newline heff hnl2 h02
      (fun l hl => by cases hl)
    exact this

/-- C11 at two examples: `master_port=3307` between two other lines, and the
line `slave_port=abc` alone. -/
theorem C11_port_parsing_witness :
    decimal 3307 = str "3307" ∧
    (∀ l ∈ [str "master_host=db1"] ++ [str "master_user=root"],
      assigned_key l ≠ some config_key.master_port) ∧
    abstract_loadfile (abstract_init none)
        (some (config_text
          ([str "master_host=db1"] ++ assignment_line .master_port (decimal 3307) ::
            [str "master_user=root"]) true)) =
      some (2 + 1, store_value .master_port (decimal 3307) half_store) ∧
    port_member .master_port (store_value .master_port (decimal 3307) half_store) = 3307 ∧
    starts_with_number (str "abc") = false ∧
    abstract_loadfile (abstract_init none)
        (some (config_text [assignment_line .slave_port (str "abc")] false)) =
      some (1, store_value .slave_port (str "abc")
        { abstract_init none with filecontent := true }) ∧
    port_member .slave_port (store_value .slave_port (str "abc")
      { abstract_init none with filecontent := true }) = 0 :=
  ⟨by simp [decimal]; decide, by decide,
    (C11_port_parsing none .master_port (decimal 3307) 3307 [str "master_host=db1"]
      [str "master_user=root"] true (Or.inl rfl) (Or.inl ⟨rfl, by norm_num⟩) (by decide)
      (by decide) (by decide)).2.2.1 2 half_store (by decide),
    (C11_port_parsing none .master_port (decimal 3307) 3307 [str "master_host=db1"]
      [str "master_user=root"] true (Or.inl rfl) (Or.inl ⟨rfl, by norm_num⟩) (by decide)
      (by decide) (by decide)).1 half_store,
    by decide,
    (C11_port_parsing none .slave_port (str "abc") 0 [] [] false (Or.inr rfl)
      (Or.inr ⟨by decide, by decide, rfl⟩) (by decide) (by decide) (by decide)).2.2.2,
    (C11_port_parsing none .slave_port (str "abc") 0 [] [] false (Or.inr rfl)
      (Or.inr ⟨by decide, by decide, rfl⟩) (by decide) (by decide) (by decide)).1 _⟩

/-- The monitor of handles does find violations: a failed attempt left open, a
returned handle that was closed, a handle that was never connected. -/
theorem handles_ok_rejects (args : connect_args) :
    ¬ handles_ok [.init 0, .connect 0 args false] .null ∧
    ¬ handles_ok [.init 0, .connect 0 args true, .close 0] (.handle 0) ∧
    ¬ handles_ok [.init 0] (.handle 0) ∧
    ¬ handles_ok [.init 0, .connect 0 args false, .close 0, .close 0] .null ∧
    ¬ handles_ok [.init 0, .connect 0 args false, .connect 0 args true] (.handle 0) := by
  simp [handles_ok, handle_run, handle_step, List.lookup]

end LibAbstract
